import Mathlib

/-!
Shallow embedding of the opportunity scanner's scoring core
(`scripts/scan_opportunities.py`) and of the live-CEX candidate builder's
normalization and depth-slippage helpers (`scripts/build_live_cex_candidates.py`).

Monetary amounts and basis points are modelled as rationals (`ℚ`); Python's
`round(x, n)` is modelled as rounding `x·10^n` to the nearest integer.
Strings are modelled as Lean `String`s (lists of characters), with ASCII
lower/upper-casing matching Python's behaviour on ASCII input.
-/

/-- Rounding to `n` decimal places, the idealized (real-arithmetic) reading of
Python's `round(x, n)`. -/
def rnd (n : ℕ) (x : ℚ) : ℚ := ((⌊x * 10 ^ n + 1 / 2⌋ : ℤ) : ℚ) / 10 ^ n

/-- Embeds `_clamp(value)` with default bounds `lo = 0`, `hi = 1`. -/
def clamp01 (x : ℚ) : ℚ := max 0 (min 1 x)

/-- Embeds `UNBOUNDED_USD = 10**18`, the sentinel for "no position cap". -/
def UNBOUNDED_USD : ℚ := 10 ^ 18

/-- The `1e-9` tolerance used by the constraint checks in `score_item`. -/
def EPS : ℚ := 1 / 10 ^ 9

/-- Whitespace test matching the ASCII characters stripped by `str.strip()`
(tab 9, LF 10, VT 11, FF 12, CR 13, space 32). -/
def wsB (c : Char) : Bool :=
  decide ((9 ≤ c.toNat ∧ c.toNat ≤ 13) ∨ c.toNat = 32)

/-- Embeds Python `str.strip()`: drop leading and trailing whitespace. -/
def trimL (s : List Char) : List Char :=
  ((s.dropWhile wsB).reverse.dropWhile wsB).reverse

/-- Embeds Python `str.lower()` (ASCII). -/
def lowerL (s : List Char) : List Char := s.map Char.toLower

/-- Embeds `str(x).strip().lower()` as used throughout the scanner. -/
def stripLower (s : List Char) : List Char := lowerL (trimL s)

/-- Embeds `str(x).strip().upper()` as used for symbols and assets. -/
def stripUpper (s : List Char) : List Char := (trimL s).map Char.toUpper

/-- Character class `[a-z0-9]`, the token characters of `re.split(r"[^a-z0-9]+", ·)`. -/
def isLowerAlnum (c : Char) : Bool :=
  decide ((97 ≤ c.toNat ∧ c.toNat ≤ 122) ∨ (48 ≤ c.toNat ∧ c.toNat ≤ 57))

/-- Character class `[A-Z0-9]`, the token characters of `re.split(r"[^A-Z0-9]+", ·)`. -/
def isUpperAlnum (c : Char) : Bool :=
  decide ((65 ≤ c.toNat ∧ c.toNat ≤ 90) ∨ (48 ≤ c.toNat ∧ c.toNat ≤ 57))

/-- Maximal runs of characters satisfying `p`: embeds
`[t for t in re.split(char-class-complement, s) if t]`. -/
def tokensBy (p : Char → Bool) : List Char → List (List Char)
  | [] => []
  | c :: cs =>
    if p c then (c :: cs.takeWhile p) :: tokensBy p (cs.dropWhile p)
    else tokensBy p cs
termination_by s => s.length
decreasing_by
  · simp only [List.length_cons]
    have h := (List.dropWhile_suffix (l := cs) p).sublist.length_le
    omega
  · simp only [List.length_cons]
    omega

/-- Boolean infix test: embeds Python's `t in s` on strings. -/
def isSubstrL (t : List Char) : List Char → Bool
  | [] => t.isPrefixOf []
  | c :: s => t.isPrefixOf (c :: s) || isSubstrL t s

/-- Stable insertion placing `a` before the first strictly shorter element. -/
def insertLenDesc (a : List Char) : List (List Char) → List (List Char)
  | [] => [a]
  | b :: bs => if b.length < a.length then a :: b :: bs else b :: insertLenDesc a bs

/-- Embeds `sorted(known_venues, key=len, reverse=True)` (membership-faithful;
the iteration order of equal-length venues in a Python set is arbitrary). -/
def sortLenDesc : List (List Char) → List (List Char)
  | [] => []
  | a :: as => insertLenDesc a (sortLenDesc as)

/-- Embeds `VENUE_STOPWORDS`. -/
def VENUE_STOPWORDS : List (List Char) :=
  (["long", "short", "spot", "perp", "futures", "future", "swap", "dex", "cex",
    "buy", "sell"] : List String).map String.toList

/-- Core of `canonical_venue` (identical in `FeeTable` and `ConstraintBook`):
lowercase and strip the raw venue; exact known-venue match, else longest
known-venue substring, else first non-stopword alphanumeric token, else the
lowered string; empty input yields `"unknown"`. -/
def canonicalVenueL (knownVenues : List (List Char)) (raw : List Char) : List Char :=
  let lowered := stripLower raw
  if lowered = [] then "unknown".toList
  else if lowered ∈ knownVenues then lowered
  else
    match (sortLenDesc knownVenues).find? (fun v => !v.isEmpty && isSubstrL v lowered) with
    | some v => v
    | none =>
      match (tokensBy isLowerAlnum lowered).find? (fun t => !VENUE_STOPWORDS.contains t) with
      | some t => t
      | none => lowered

/-- String-level wrapper for `canonical_venue`. -/
def canonical_venue (knownVenues : List String) (raw : String) : String :=
  ⟨canonicalVenueL (knownVenues.map String.toList) raw.toList⟩

/-- Embeds `FeeTable.INSTRUMENT_KEYWORDS["perp"]`. -/
def PERP_KEYWORDS : List (List Char) :=
  (["perp", "future", "futures", "swap"] : List String).map String.toList

/-- Embeds `FeeTable.INSTRUMENT_KEYWORDS["dex"]`. -/
def DEX_KEYWORDS : List (List Char) :=
  (["dex", "jupiter", "uniswap", "raydium", "0x", "orca"] : List String).map String.toList

/-- Embeds `FeeTable.INSTRUMENT_KEYWORDS["spot"]`. -/
def SPOT_KEYWORDS : List (List Char) :=
  (["spot"] : List String).map String.toList

/-- Embeds `FeeTable.instrument_from_venue`. -/
def instrument_from_venue (raw : String) : String :=
  let lowered := stripLower raw.toList
  if lowered = [] then "unknown"
  else
    let toks := tokensBy isLowerAlnum lowered
    if toks.any (fun t => PERP_KEYWORDS.contains t) then "perp"
    else if toks.any (fun t => DEX_KEYWORDS.contains t) then "dex"
    else if toks.any (fun t => SPOT_KEYWORDS.contains t) then "spot"
    else if isSubstrL "jupiter".toList lowered || isSubstrL "uniswap".toList lowered then "dex"
    else "spot"

/-- Embeds `ConstraintBook.asset_from_symbol`. -/
def asset_from_symbol (symbol : String) : String :=
  let raw := stripUpper symbol.toList
  if raw = [] then "UNKNOWN"
  else if raw.contains '/' then
    let head := trimL (raw.takeWhile (fun c => c != '/'))
    if head = [] then "UNKNOWN" else ⟨head⟩
  else
    match tokensBy isUpperAlnum raw with
    | [] => "UNKNOWN"
    | t :: _ => ⟨t⟩

/-- Embeds `_as_non_negative(value, fallback)`: `some v` models a present
numeric value (clamped at 0), `none` a missing value (fallback). -/
def as_non_negative (v : Option ℚ) (fallback : ℚ) : ℚ :=
  match v with
  | some x => max 0 x
  | none => fallback

/-- Embeds `INVENTORY_REQUIRED_STRATEGIES`. -/
def INVENTORY_REQUIRED_STRATEGIES : List String :=
  ["cex_cex", "cex_dex", "perp_spot_basis"]

/-- Embeds `DEFAULT_STRATEGY_HOLD_HOURS`. -/
def DEFAULT_STRATEGY_HOLD_HOURS : List (String × ℚ) :=
  [("cex_cex", 0.20), ("cex_dex", 0.30), ("funding_carry_cex_cex", 8.0),
   ("perp_spot_basis", 8.0)]

/-- Embeds `DEFAULT_STRATEGY_LEVERAGE_NOTIONAL_MULTIPLIER`. -/
def DEFAULT_STRATEGY_LEVERAGE_NOTIONAL_MULTIPLIER : List (String × ℚ) :=
  [("cex_cex", 1.0), ("cex_dex", 1.0), ("funding_carry_cex_cex", 2.0),
   ("perp_spot_basis", 1.25)]

/-- Input candidate record, the fields `score_item` reads from `item`. -/
structure Candidate where
  detected_at : String := ""
  strategy_type : String := ""
  symbol : String := ""
  buy_venue : String := ""
  sell_venue : String := ""
  gross_edge_bps : ℚ := 0
  fees_bps : ℚ := 0
  slippage_bps : ℚ := 0
  latency_risk_bps : ℚ := 0
  transfer_delay_min : ℚ := 0
  size_usd : ℚ := 0
  notes : String := ""
deriving DecidableEq

/-- One fee rule or default bucket of the fee table (fields always present in
constructed rules; defaults mirror the load-time fallbacks 10/8/4). -/
structure FeeBucket where
  taker_bps : ℚ := 10
  maker_bps : ℚ := 8
  maker_vip_bps : ℚ := 4
deriving DecidableEq

/-- Embeds `row.get(f"{fee_mode}_bps")` on a fee bucket. -/
def feeBucketGet (b : FeeBucket) (mode : String) : Option ℚ :=
  if mode = "taker" then some b.taker_bps
  else if mode = "maker" then some b.maker_bps
  else if mode = "maker_vip" then some b.maker_vip_bps
  else none

/-- Embeds the loaded `FeeTable` state (rule venue keys are stored
stripped-lowercased, as the loader produces them). -/
structure FeeTable where
  enabled : Bool := false
  spot_fees : FeeBucket := {}
  perp_fees : FeeBucket := {}
  dex_fees : FeeBucket := {}
  unknown_fees : FeeBucket := {}
  profile_fee_mode : List (String × String) :=
    [("taker_default", "taker"), ("maker_inventory", "maker"),
     ("maker_inventory_vip", "maker_vip")]
  strategy_roundtrip_side_multiplier : List (String × ℚ) :=
    [("cex_cex", 1.0), ("cex_dex", 1.0), ("funding_carry_cex_cex", 2.0),
     ("perp_spot_basis", 2.0)]
  rules : List ((String × String) × FeeBucket) := []

/-- Embeds `self.known_venues` of the fee table. -/
def FeeTable.known_venues (ft : FeeTable) : List String :=
  ft.rules.map (fun r => r.1.1)

/-- Embeds `FeeTable._default_bucket`. -/
def FeeTable.default_bucket (ft : FeeTable) (instrument : String) : FeeBucket :=
  if instrument = "spot" then ft.spot_fees
  else if instrument = "perp" then ft.perp_fees
  else if instrument = "dex" then ft.dex_fees
  else if instrument = "unknown" then ft.unknown_fees
  else ft.unknown_fees

/-- Embeds `FeeTable.side_fee_bps`. -/
def FeeTable.side_fee_bps (ft : FeeTable) (raw_venue : String) (fee_mode : String) : ℚ :=
  let venue_key := canonical_venue ft.known_venues raw_venue
  let instrument := instrument_from_venue raw_venue
  let row :=
    match ft.rules.lookup (venue_key, instrument) with
    | some r => r
    | none =>
      match ft.rules.lookup (venue_key, "unknown") with
      | some r => r
      | none => ft.default_bucket instrument
  let fallback :=
    (feeBucketGet (ft.default_bucket instrument) fee_mode).getD
      ((feeBucketGet ft.unknown_fees fee_mode).getD 10)
  as_non_negative (feeBucketGet row fee_mode) fallback

/-- The validated fee mode `estimate_total_fee_bps` resolves for a profile:
profile map lookup with default `"taker"`, coerced to a legal mode. -/
def FeeTable.fee_mode_for (ft : FeeTable) (execution_profile : String) : String :=
  let fee_mode0 := (ft.profile_fee_mode.lookup execution_profile).getD "taker"
  if fee_mode0 = "taker" ∨ fee_mode0 = "maker" ∨ fee_mode0 = "maker_vip"
  then fee_mode0 else "taker"

/-- Embeds `FeeTable.estimate_total_fee_bps`: `none` when the table is
disabled, otherwise the rounded roundtrip total and the fee mode used. -/
def FeeTable.estimate_total_fee_bps (ft : FeeTable) (item : Candidate)
    (execution_profile : String) : Option (ℚ × String) :=
  if ft.enabled then
    let fee_mode := ft.fee_mode_for execution_profile
    let buy_fee := ft.side_fee_bps item.buy_venue fee_mode
    let sell_fee := ft.side_fee_bps item.sell_venue fee_mode
    let strategy_type : String := ⟨trimL item.strategy_type.toList⟩
    let side_multiplier :=
      (ft.strategy_roundtrip_side_multiplier.lookup strategy_type).getD 1.0
    some (rnd 6 ((buy_fee + sell_fee) * max 0 side_multiplier), fee_mode)
  else none

/-- One constraint rule row (or the defaults dict): `some v` models a key
present with numeric value, `none` a missing key. -/
structure ConstraintRow where
  max_position_usd : Option ℚ := none
  available_inventory_usd : Option ℚ := none
  max_borrow_usd : Option ℚ := none
  borrow_rate_bps_per_hour : Option ℚ := none
  max_leverage : Option ℚ := none
deriving DecidableEq

/-- Embeds the loaded `ConstraintBook` state (rule keys are stored as
lowercased venue and uppercased asset, as the loader produces them). -/
structure ConstraintBook where
  enabled : Bool := false
  defaults : ConstraintRow := {}
  strategy_hold_hours : List (String × ℚ) := DEFAULT_STRATEGY_HOLD_HOURS
  strategy_leverage_notional_multiplier : List (String × ℚ) :=
    DEFAULT_STRATEGY_LEVERAGE_NOTIONAL_MULTIPLIER
  rules : List ((String × String) × ConstraintRow) := []

/-- Embeds `self.known_venues` of the constraint book. -/
def ConstraintBook.known_venues (cb : ConstraintBook) : List String :=
  cb.rules.map (fun r => r.1.1)

/-- Embeds `ConstraintBook.hold_hours`. -/
def ConstraintBook.hold_hours (cb : ConstraintBook) (strategy_type : String) : ℚ :=
  as_non_negative (cb.strategy_hold_hours.lookup strategy_type) 1.0

/-- Embeds `ConstraintBook.leverage_notional_multiplier`. -/
def ConstraintBook.leverage_notional_multiplier (cb : ConstraintBook)
    (strategy_type : String) : ℚ :=
  as_non_negative (cb.strategy_leverage_notional_multiplier.lookup strategy_type) 1.0

/-- Embeds `ConstraintBook._read_limit`: rule value, else defaults value, else
the unbounded sentinel or zero. -/
def read_limit (row defaults : ConstraintRow) (sel : ConstraintRow → Option ℚ)
    (default_unbounded : Bool) : ℚ :=
  match sel row with
  | some v => max 0 v
  | none =>
    match sel defaults with
    | some v => max 0 v
    | none => if default_unbounded then UNBOUNDED_USD else 0

/-- Embeds `ConstraintBook._read_value`. -/
def read_value (row defaults : ConstraintRow) (sel : ConstraintRow → Option ℚ)
    (fallback : ℚ) : ℚ :=
  match sel row with
  | some v => max 0 v
  | none =>
    match sel defaults with
    | some v => max 0 v
    | none => fallback

/-- Result of `ConstraintBook.constraints_for`. -/
structure EffectiveConstraints where
  venue_key : String
  asset : String
  max_position_usd : ℚ
  available_inventory_usd : ℚ
  max_borrow_usd : ℚ
  borrow_rate_bps_per_hour : ℚ
  max_leverage : ℚ
deriving DecidableEq

/-- Embeds `ConstraintBook.constraints_for`. -/
def ConstraintBook.constraints_for (cb : ConstraintBook) (raw_venue asset : String) :
    EffectiveConstraints :=
  let venue_key := canonical_venue cb.known_venues raw_venue
  let asset_trimmed := stripUpper asset.toList
  let asset_key : String := if asset_trimmed = [] then "UNKNOWN" else ⟨asset_trimmed⟩
  let row := (cb.rules.lookup (venue_key, asset_key)).getD {}
  { venue_key := venue_key
    asset := asset_key
    max_position_usd := read_limit row cb.defaults (fun r => r.max_position_usd) true
    available_inventory_usd :=
      read_limit row cb.defaults (fun r => r.available_inventory_usd) false
    max_borrow_usd := read_limit row cb.defaults (fun r => r.max_borrow_usd) false
    borrow_rate_bps_per_hour :=
      read_value row cb.defaults (fun r => r.borrow_rate_bps_per_hour) 0
    max_leverage := read_value row cb.defaults (fun r => r.max_leverage) 0 }

/-- Embeds `_risk_score` (the single weighting used by the code). -/
def risk_score_fn (fees_bps slippage_bps latency_risk_bps borrow_cost_bps
    net_edge_bps transfer_risk_bps : ℚ) : ℚ :=
  rnd 4
    (0.18 * clamp01 (fees_bps / 20)
      + 0.22 * clamp01 (slippage_bps / 20)
      + 0.16 * clamp01 (latency_risk_bps / 12)
      + 0.16 * clamp01 (transfer_risk_bps / 12)
      + 0.14 * clamp01 (borrow_cost_bps / 12)
      + 0.14 * clamp01 ((10 - max net_edge_bps 0) / 10))

/-- Embeds `_dominant_drag` (Python's `max` keeps the first maximum, scanning
in dict insertion order fees, slippage, latency, transfer, borrow). -/
def dominant_drag_fn (fees_bps slippage_bps latency_risk_bps transfer_risk_bps
    borrow_cost_bps : ℚ) : String :=
  (([("slippage", slippage_bps), ("latency", latency_risk_bps),
     ("transfer", transfer_risk_bps), ("borrow", borrow_cost_bps)] :
      List (String × ℚ)).foldl
    (fun acc kv => if acc.2 < kv.2 then kv else acc) ("fees", fees_bps)).1

/-- Embeds `_rejection_reasons`. -/
def rejection_reasons_fn (gross_edge_bps fees_bps slippage_bps latency_risk_bps
    borrow_cost_bps net_edge_bps risk_score transfer_risk_bps
    min_net_edge_bps max_risk_score : ℚ)
    (constraints_enabled position_limit_exceeded inventory_unavailable
      borrow_limit_exceeded leverage_limit_exceeded : Bool) : List String :=
  (if net_edge_bps < min_net_edge_bps then ["net_edge_below_threshold"] else []) ++
  (if max_risk_score < risk_score then ["risk_score_above_threshold"] else []) ++
  (if gross_edge_bps ≤ fees_bps then ["fee_dominated"] else []) ++
  (if gross_edge_bps ≤ slippage_bps then ["slippage_dominated"] else []) ++
  (if gross_edge_bps ≤ latency_risk_bps + transfer_risk_bps
    then ["latency_transfer_dominated"] else []) ++
  (if 0 < borrow_cost_bps ∧ gross_edge_bps ≤ borrow_cost_bps
    then ["borrow_dominated"] else []) ++
  (if constraints_enabled then
    (if position_limit_exceeded then ["position_limit_exceeded"] else []) ++
    (if inventory_unavailable then ["inventory_unavailable"] else []) ++
    (if borrow_limit_exceeded then ["borrow_limit_exceeded"] else []) ++
    (if leverage_limit_exceeded then ["leverage_limit_exceeded"] else [])
  else [])

/-- Embeds `_render_limit`. -/
def render_limit (limit : ℚ) : ℚ :=
  if UNBOUNDED_USD / 2 ≤ limit then 0 else rnd 4 limit

/-- The constraint-dependent intermediate values of `score_item` (all zero /
false when the constraint book is disabled). -/
structure ConstraintEval where
  inventory_available_usd : ℚ := 0
  max_position_usd : ℚ := 0
  borrow_required_usd : ℚ := 0
  borrow_capacity_usd : ℚ := 0
  borrow_rate_bps_per_hour : ℚ := 0
  max_leverage : ℚ := 0
  leverage_used : ℚ := 0
  borrow_cost_bps : ℚ := 0
  position_limit_exceeded : Bool := false
  inventory_unavailable : Bool := false
  borrow_limit_exceeded : Bool := false
  leverage_limit_exceeded : Bool := false
deriving DecidableEq

/-- Embeds the `if constraint_book.enabled:` block of `score_item`. -/
def eval_constraints (cb : ConstraintBook) (item : Candidate)
    (strategy_type : String) (size_usd leverage_notional_usd hold_hours : ℚ) :
    ConstraintEval :=
  if cb.enabled then
    let asset := asset_from_symbol item.symbol
    let buyC := cb.constraints_for item.buy_venue asset
    let sellC := cb.constraints_for item.sell_venue asset
    let effective_max_position := min buyC.max_position_usd sellC.max_position_usd
    let inventory_available_usd := sellC.available_inventory_usd
    let borrow_capacity_usd := sellC.max_borrow_usd
    let leverage_caps :=
      [buyC.max_leverage, sellC.max_leverage].filter (fun v => decide (0 < v))
    let max_leverage := leverage_caps.min?.getD 0
    let inventory_required_usd :=
      if INVENTORY_REQUIRED_STRATEGIES.contains strategy_type then size_usd else 0
    let borrow_required_usd := max 0 (inventory_required_usd - inventory_available_usd)
    let equity_base_usd := max 0 inventory_available_usd
    let leverage_used :=
      if 0 < leverage_notional_usd ∧ 0 < equity_base_usd
      then rnd 6 (leverage_notional_usd / equity_base_usd) else 0
    let borrow_used_usd := min borrow_required_usd borrow_capacity_usd
    { inventory_available_usd := inventory_available_usd
      max_position_usd := render_limit effective_max_position
      borrow_required_usd := borrow_required_usd
      borrow_capacity_usd := borrow_capacity_usd
      borrow_rate_bps_per_hour := sellC.borrow_rate_bps_per_hour
      max_leverage := max_leverage
      leverage_used := leverage_used
      borrow_cost_bps :=
        if 0 < size_usd ∧ 0 < borrow_used_usd
        then rnd 6 ((borrow_used_usd / size_usd) * sellC.borrow_rate_bps_per_hour
          * hold_hours)
        else 0
      position_limit_exceeded := decide (effective_max_position + EPS < size_usd)
      inventory_unavailable :=
        decide (0 < inventory_required_usd ∧ inventory_available_usd ≤ 0
          ∧ borrow_capacity_usd ≤ 0)
      borrow_limit_exceeded := decide (borrow_capacity_usd + EPS < borrow_required_usd)
      leverage_limit_exceeded :=
        if 0 < max_leverage ∧ 0 < leverage_notional_usd
        then decide (equity_base_usd ≤ 0 ∨ max_leverage + EPS < leverage_used)
        else false }
  else {}

/-- Output record of `score_item` (the `ScoredOpportunity` dataclass). -/
structure ScoredOpportunity where
  detected_at : String
  strategy_type : String
  symbol : String
  buy_venue : String
  sell_venue : String
  execution_profile : String
  constraints_enabled : Bool
  gross_edge_bps : ℚ
  source_fees_bps : ℚ
  fee_model_base_fees_bps : ℚ
  fee_mode : String
  fee_model_used : Bool
  source_slippage_bps : ℚ
  source_latency_risk_bps : ℚ
  source_transfer_delay_min : ℚ
  fees_bps : ℚ
  slippage_bps : ℚ
  latency_risk_bps : ℚ
  transfer_delay_min : ℚ
  transfer_risk_bps : ℚ
  hold_hours : ℚ
  inventory_available_usd : ℚ
  max_position_usd : ℚ
  borrow_required_usd : ℚ
  borrow_capacity_usd : ℚ
  borrow_rate_bps_per_hour : ℚ
  max_leverage : ℚ
  leverage_notional_multiplier : ℚ
  leverage_notional_usd : ℚ
  leverage_used : ℚ
  borrow_cost_bps : ℚ
  net_edge_bps : ℚ
  risk_score : ℚ
  size_usd : ℚ
  dominant_drag : String
  is_qualified : Bool
  rejection_reasons : List String
  notes : String := ""
deriving DecidableEq

/-- Embeds `score_item`. -/
def score_item (item : Candidate) (execution_profile : String)
    (fee_multiplier slippage_multiplier latency_multiplier
      transfer_delay_multiplier transfer_penalty_bps_per_min
      min_net_edge_bps max_risk_score : ℚ)
    (constraint_book : ConstraintBook) (fee_table : FeeTable) :
    ScoredOpportunity :=
  let source_fees_bps := item.fees_bps
  let source_slippage_bps := item.slippage_bps
  let source_latency_risk_bps := item.latency_risk_bps
  let source_transfer_delay_min := item.transfer_delay_min
  let size_usd := item.size_usd
  let fee_estimate := fee_table.estimate_total_fee_bps item execution_profile
  let fee_model_base_fees_bps :=
    match fee_estimate with
    | some fm => fm.1
    | none => source_fees_bps
  let fee_mode :=
    match fee_estimate with
    | some fm => fm.2
    | none => "candidate_source"
  let fee_model_used := fee_estimate.isSome
  let fees_bps := rnd 6 (fee_model_base_fees_bps * fee_multiplier)
  let slippage_bps := rnd 6 (source_slippage_bps * slippage_multiplier)
  let latency_risk_bps := rnd 6 (source_latency_risk_bps * latency_multiplier)
  let transfer_delay_min := rnd 6 (source_transfer_delay_min * transfer_delay_multiplier)
  let transfer_risk_bps := rnd 4 (transfer_delay_min * transfer_penalty_bps_per_min)
  let strategy_type : String := ⟨trimL item.strategy_type.toList⟩
  let hold_hours := constraint_book.hold_hours strategy_type
  let leverage_notional_multiplier :=
    constraint_book.leverage_notional_multiplier strategy_type
  let leverage_notional_usd := rnd 6 (size_usd * leverage_notional_multiplier)
  let ce := eval_constraints constraint_book item strategy_type size_usd
    leverage_notional_usd hold_hours
  let net_edge_bps := rnd 4 (item.gross_edge_bps - fees_bps - slippage_bps
    - latency_risk_bps - transfer_risk_bps - ce.borrow_cost_bps)
  let risk_score := risk_score_fn fees_bps slippage_bps latency_risk_bps
    ce.borrow_cost_bps net_edge_bps transfer_risk_bps
  let constraint_blocked := ce.position_limit_exceeded || ce.borrow_limit_exceeded
    || ce.inventory_unavailable || ce.leverage_limit_exceeded
  let is_qualified := decide (min_net_edge_bps ≤ net_edge_bps)
    && decide (risk_score ≤ max_risk_score) && !constraint_blocked
  let dominant_drag := dominant_drag_fn fees_bps slippage_bps latency_risk_bps
    transfer_risk_bps ce.borrow_cost_bps
  let rejection_reasons :=
    if is_qualified then []
    else rejection_reasons_fn item.gross_edge_bps fees_bps slippage_bps
      latency_risk_bps ce.borrow_cost_bps net_edge_bps risk_score
      transfer_risk_bps min_net_edge_bps max_risk_score constraint_book.enabled
      ce.position_limit_exceeded ce.inventory_unavailable
      ce.borrow_limit_exceeded ce.leverage_limit_exceeded
  { detected_at := item.detected_at
    strategy_type := item.strategy_type
    symbol := item.symbol
    buy_venue := item.buy_venue
    sell_venue := item.sell_venue
    execution_profile := execution_profile
    constraints_enabled := constraint_book.enabled
    gross_edge_bps := item.gross_edge_bps
    source_fees_bps := source_fees_bps
    fee_model_base_fees_bps := fee_model_base_fees_bps
    fee_mode := fee_mode
    fee_model_used := fee_model_used
    source_slippage_bps := source_slippage_bps
    source_latency_risk_bps := source_latency_risk_bps
    source_transfer_delay_min := source_transfer_delay_min
    fees_bps := fees_bps
    slippage_bps := slippage_bps
    latency_risk_bps := latency_risk_bps
    transfer_delay_min := transfer_delay_min
    transfer_risk_bps := transfer_risk_bps
    hold_hours := hold_hours
    inventory_available_usd := rnd 4 ce.inventory_available_usd
    max_position_usd := ce.max_position_usd
    borrow_required_usd := rnd 4 ce.borrow_required_usd
    borrow_capacity_usd := rnd 4 ce.borrow_capacity_usd
    borrow_rate_bps_per_hour := rnd 6 ce.borrow_rate_bps_per_hour
    max_leverage := rnd 6 ce.max_leverage
    leverage_notional_multiplier := rnd 6 leverage_notional_multiplier
    leverage_notional_usd := rnd 6 leverage_notional_usd
    leverage_used := rnd 6 ce.leverage_used
    borrow_cost_bps := ce.borrow_cost_bps
    net_edge_bps := net_edge_bps
    risk_score := risk_score
    size_usd := size_usd
    dominant_drag := dominant_drag
    is_qualified := is_qualified
    rejection_reasons := rejection_reasons
    notes := item.notes }

/-- Ranking key comparison for the shortlist: embeds the stable sort
`sorted(scored, key=lambda x: (x.is_qualified, x.net_edge_bps), reverse=True)`
of `main` and `render_markdown` (`a` may precede `b` iff its key tuple is
greater or equal). -/
def shortlist_key_ge (a b : ScoredOpportunity) : Bool :=
  let qa : ℕ := if a.is_qualified then 1 else 0
  let qb : ℕ := if b.is_qualified then 1 else 0
  decide (qb < qa ∨ (qa = qb ∧ b.net_edge_bps ≤ a.net_edge_bps))

/-- Embeds the shortlist ordering of `main` (stable descending sort on
`(is_qualified, net_edge_bps)`). -/
def rank_shortlist (scored : List ScoredOpportunity) : List ScoredOpportunity :=
  scored.mergeSort shortlist_key_ge

/-- Normalized quote record of `build_live_cex_candidates.py`. -/
structure Quote where
  detected_at : String
  venue : String
  market : String
  symbol : String
  base : String
  quote : String
  bid_price : ℚ
  ask_price : ℚ
  mid_price : ℚ
  spread_bps : ℚ
deriving DecidableEq

/-- Embeds the suffix loop of `_parse_symbol` over the quote-priority list. -/
def parse_symbol_aux (quotes : List String) (symbol : String) :
    Option (String × String) :=
  match quotes with
  | [] => none
  | q :: rest =>
    if q.toList.isSuffixOf symbol.toList ∧ q.toList.length < symbol.toList.length
    then some (⟨symbol.toList.take (symbol.toList.length - q.toList.length)⟩, q)
    else parse_symbol_aux rest symbol

/-- Embeds `_parse_symbol` (quote priority `USDT` then `USDC`). -/
def parse_symbol (symbol : String) : Option (String × String) :=
  parse_symbol_aux ["USDT", "USDC"] symbol

/-- Embeds `normalize_quotes`, with each venue's quote map as an association
list from venue symbol to `(bid, ask)`. -/
def normalize_quotes (run_at : String) (symbols : List String)
    (binance bybit : List (String × ℚ × ℚ)) : List Quote :=
  ([("binance", binance), ("bybit", bybit)] :
      List (String × List (String × ℚ × ℚ))).flatMap (fun vs =>
    symbols.filterMap (fun symbol =>
      match vs.2.lookup symbol with
      | none => none
      | some ba =>
        match parse_symbol symbol with
        | none => none
        | some bq =>
          let mid := (ba.1 + ba.2) / 2
          let spread_bps := ((ba.2 - ba.1) / mid) * 10000
          some { detected_at := run_at
                 venue := vs.1
                 market := "spot"
                 symbol := bq.1 ++ "/" ++ bq.2
                 base := bq.1
                 quote := bq.2
                 bid_price := rnd 10 ba.1
                 ask_price := rnd 10 ba.2
                 mid_price := rnd 10 mid
                 spread_bps := rnd 6 spread_bps }))

/-- Embeds the accumulation loop of `_calc_buy_slippage_bps`, tracking the
remaining quote target; returns `(spent_quote, bought_base)`. -/
def buy_walk : List (ℚ × ℚ) → ℚ → ℚ × ℚ
  | [], _ => (0, 0)
  | (p, q) :: rest, remaining =>
    let level_quote := p * q
    let take_quote := min remaining level_quote
    if take_quote ≤ 0 then (0, 0)
    else if remaining ≤ level_quote then (take_quote, take_quote / p)
    else
      let acc := buy_walk rest (remaining - level_quote)
      (take_quote + acc.1, take_quote / p + acc.2)

/-- Embeds `_calc_buy_slippage_bps`. -/
def calc_buy_slippage_bps (mid_price : ℚ) (asks : List (ℚ × ℚ)) (size_usd : ℚ) :
    Option ℚ :=
  let w := buy_walk asks size_usd
  if w.1 < size_usd ∨ w.2 ≤ 0 then none
  else some (max 0 ((w.1 / w.2 / mid_price - 1) * 10000))

/-- Embeds the accumulation loop of `_calc_sell_slippage_bps`, tracking the
remaining base target; returns `(sold_base, received_quote)`. -/
def sell_walk : List (ℚ × ℚ) → ℚ → ℚ × ℚ
  | [], _ => (0, 0)
  | (p, q) :: rest, remaining =>
    let take_base := min remaining q
    if take_base ≤ 0 then (0, 0)
    else if remaining ≤ q then (take_base, take_base * p)
    else
      let acc := sell_walk rest (remaining - q)
      (take_base + acc.1, take_base * p + acc.2)

/-- Embeds `_calc_sell_slippage_bps`. -/
def calc_sell_slippage_bps (mid_price : ℚ) (bids : List (ℚ × ℚ)) (size_usd : ℚ) :
    Option ℚ :=
  let target_base := size_usd / mid_price
  let w := sell_walk bids target_base
  if w.1 < target_base ∨ w.1 ≤ 0 then none
  else some (max 0 ((1 - (w.2 / w.1) / mid_price) * 10000))

/-- The model rounding agrees with Mathlib's round-half-up `round`. -/
theorem rnd_eq_round (n : ℕ) (x : ℚ) :
    rnd n x = ((round (x * 10 ^ n) : ℤ) : ℚ) / 10 ^ n := by
  rw [rnd, round_eq]

/-- Rounding to `n` decimals moves a value by at most half an ulp. -/
theorem abs_rnd_sub_le (n : ℕ) (x : ℚ) : |rnd n x - x| ≤ 1 / (2 * 10 ^ n) := by
  have h10 : (0 : ℚ) < 10 ^ n := by positivity
  have h := abs_sub_round (x * 10 ^ n)
  rw [abs_sub_comm] at h
  have hx : rnd n x - x = ((round (x * 10 ^ n) : ℚ) - x * 10 ^ n) / 10 ^ n := by
    rw [rnd_eq_round]
    field_simp
    ring
  rw [hx, abs_div, abs_of_pos h10, div_le_div_iff₀ h10 (by positivity)]
  nlinarith [h]

/-- Rounding preserves non-negativity. -/
theorem rnd_nonneg (n : ℕ) (x : ℚ) (hx : 0 ≤ x) : 0 ≤ rnd n x := by
  have h10 : (0 : ℚ) < 10 ^ n := by positivity
  apply div_nonneg _ h10.le
  have h0 : (0 : ℤ) ≤ ⌊x * 10 ^ n + 1 / 2⌋ := by
    apply Int.floor_nonneg.2
    nlinarith
  exact_mod_cast h0

/-- Unfolding lemma: the emitted `net_edge_bps` is the 4-decimal rounding of the
friction difference over the emitted components. -/
theorem score_item_net_edge_eq (item : Candidate) (execution_profile : String)
    (fee_multiplier slippage_multiplier latency_multiplier
      transfer_delay_multiplier transfer_penalty_bps_per_min
      min_net_edge_bps max_risk_score : ℚ)
    (constraint_book : ConstraintBook) (fee_table : FeeTable) :
    (score_item item execution_profile fee_multiplier slippage_multiplier
        latency_multiplier transfer_delay_multiplier transfer_penalty_bps_per_min
        min_net_edge_bps max_risk_score constraint_book fee_table).net_edge_bps =
      rnd 4
        ((score_item item execution_profile fee_multiplier slippage_multiplier
            latency_multiplier transfer_delay_multiplier transfer_penalty_bps_per_min
            min_net_edge_bps max_risk_score constraint_book fee_table).gross_edge_bps
          - (score_item item execution_profile fee_multiplier slippage_multiplier
              latency_multiplier transfer_delay_multiplier transfer_penalty_bps_per_min
              min_net_edge_bps max_risk_score constraint_book fee_table).fees_bps
          - (score_item item execution_profile fee_multiplier slippage_multiplier
              latency_multiplier transfer_delay_multiplier transfer_penalty_bps_per_min
              min_net_edge_bps max_risk_score constraint_book fee_table).slippage_bps
          - (score_item item execution_profile fee_multiplier slippage_multiplier
              latency_multiplier transfer_delay_multiplier transfer_penalty_bps_per_min
              min_net_edge_bps max_risk_score constraint_book fee_table).latency_risk_bps
          - (score_item item execution_profile fee_multiplier slippage_multiplier
              latency_multiplier transfer_delay_multiplier transfer_penalty_bps_per_min
              min_net_edge_bps max_risk_score constraint_book fee_table).transfer_risk_bps
          - (score_item item execution_profile fee_multiplier slippage_multiplier
              latency_multiplier transfer_delay_multiplier transfer_penalty_bps_per_min
              min_net_edge_bps max_risk_score constraint_book fee_table).borrow_cost_bps) :=
  rfl

/-- Unfolding lemma: the emitted `transfer_risk_bps` is the 4-decimal rounding
of the emitted post-multiplier delay times the penalty. -/
theorem score_item_transfer_risk_eq (item : Candidate) (execution_profile : String)
    (fee_multiplier slippage_multiplier latency_multiplier
      transfer_delay_multiplier transfer_penalty_bps_per_min
      min_net_edge_bps max_risk_score : ℚ)
    (constraint_book : ConstraintBook) (fee_table : FeeTable) :
    (score_item item execution_profile fee_multiplier slippage_multiplier
        latency_multiplier transfer_delay_multiplier transfer_penalty_bps_per_min
        min_net_edge_bps max_risk_score constraint_book fee_table).transfer_risk_bps =
      rnd 4
        ((score_item item execution_profile fee_multiplier slippage_multiplier
            latency_multiplier transfer_delay_multiplier transfer_penalty_bps_per_min
            min_net_edge_bps max_risk_score constraint_book fee_table).transfer_delay_min
          * transfer_penalty_bps_per_min) :=
  rfl

/-- C1: for every input candidate and execution-profile parameters, the
`net_edge_bps` computed by `score_item` equals `gross_edge_bps` minus the
post-multiplier `fees_bps`, `slippage_bps`, `latency_risk_bps`,
`transfer_risk_bps` and `borrow_cost_bps` within rounding tolerance `1e-4` bps,
where `transfer_risk_bps` equals the post-multiplier `transfer_delay_min` times
`transfer_penalty_bps_per_min` (within the same tolerance) and is non-negative
whenever the delay and the penalty are non-negative. -/
theorem score_item_net_edge_identity (item : Candidate) (execution_profile : String)
    (fee_multiplier slippage_multiplier latency_multiplier
      transfer_delay_multiplier transfer_penalty_bps_per_min
      min_net_edge_bps max_risk_score : ℚ)
    (constraint_book : ConstraintBook) (fee_table : FeeTable) :
    |(score_item item execution_profile fee_multiplier slippage_multiplier
        latency_multiplier transfer_delay_multiplier transfer_penalty_bps_per_min
        min_net_edge_bps max_risk_score constraint_book fee_table).net_edge_bps
      - ((score_item item execution_profile fee_multiplier slippage_multiplier
            latency_multiplier transfer_delay_multiplier transfer_penalty_bps_per_min
            min_net_edge_bps max_risk_score constraint_book fee_table).gross_edge_bps
          - (score_item item execution_profile fee_multiplier slippage_multiplier
              latency_multiplier transfer_delay_multiplier transfer_penalty_bps_per_min
              min_net_edge_bps max_risk_score constraint_book fee_table).fees_bps
          - (score_item item execution_profile fee_multiplier slippage_multiplier
              latency_multiplier transfer_delay_multiplier transfer_penalty_bps_per_min
              min_net_edge_bps max_risk_score constraint_book fee_table).slippage_bps
          - (score_item item execution_profile fee_multiplier slippage_multiplier
              latency_multiplier transfer_delay_multiplier transfer_penalty_bps_per_min
              min_net_edge_bps max_risk_score constraint_book fee_table).latency_risk_bps
          - (score_item item execution_profile fee_multiplier slippage_multiplier
              latency_multiplier transfer_delay_multiplier transfer_penalty_bps_per_min
              min_net_edge_bps max_risk_score constraint_book fee_table).transfer_risk_bps
          - (score_item item execution_profile fee_multiplier slippage_multiplier
              latency_multiplier transfer_delay_multiplier transfer_penalty_bps_per_min
              min_net_edge_bps max_risk_score constraint_book fee_table).borrow_cost_bps)|
      ≤ 1 / 10 ^ 4
    ∧ |(score_item item execution_profile fee_multiplier slippage_multiplier
          latency_multiplier transfer_delay_multiplier transfer_penalty_bps_per_min
          min_net_edge_bps max_risk_score constraint_book fee_table).transfer_risk_bps
        - (score_item item execution_profile fee_multiplier slippage_multiplier
            latency_multiplier transfer_delay_multiplier transfer_penalty_bps_per_min
            min_net_edge_bps max_risk_score constraint_book fee_table).transfer_delay_min
          * transfer_penalty_bps_per_min|
      ≤ 1 / 10 ^ 4
    ∧ (0 ≤ (score_item item execution_profile fee_multiplier slippage_multiplier
          latency_multiplier transfer_delay_multiplier transfer_penalty_bps_per_min
          min_net_edge_bps max_risk_score constraint_book fee_table).transfer_delay_min →
        0 ≤ transfer_penalty_bps_per_min →
        0 ≤ (score_item item execution_profile fee_multiplier slippage_multiplier
          latency_multiplier transfer_delay_multiplier transfer_penalty_bps_per_min
          min_net_edge_bps max_risk_score constraint_book fee_table).transfer_risk_bps) := by
  refine ⟨?_, ?_, fun h1 h2 => ?_⟩
  · rw [score_item_net_edge_eq]
    exact le_trans (abs_rnd_sub_le 4 _) (by norm_num)
  · rw [score_item_transfer_risk_eq]
    exact le_trans (abs_rnd_sub_le 4 _) (by norm_num)
  · rw [score_item_transfer_risk_eq]
    exact rnd_nonneg 4 _ (mul_nonneg h1 h2)

/-- Scenario input used by several witnesses (S1 of the spec). -/
def itemS1 : Candidate :=
  { strategy_type := "cex_cex"
    symbol := "BTC/USDT"
    buy_venue := "binance"
    sell_venue := "bybit"
    gross_edge_bps := 20
    fees_bps := 4
    slippage_bps := 3
    latency_risk_bps := 1
    transfer_delay_min := 2
    size_usd := 10000 }

/-- The S1 scoring run: `taker_default` multipliers, no constraints, no fee
table. -/
def resS1 : ScoredOpportunity :=
  score_item itemS1 "taker_default" 1 1 1 1 (9 / 20) 8 (3 / 5) {} {}

unseal Rat.mul Rat.add Rat.sub Rat.inv Rat.ofScientific in
/-- Witness for C1 at the concrete S1 input. -/
theorem score_item_net_edge_identity_witness :
    |resS1.net_edge_bps - (resS1.gross_edge_bps - resS1.fees_bps - resS1.slippage_bps
        - resS1.latency_risk_bps - resS1.transfer_risk_bps - resS1.borrow_cost_bps)|
      ≤ 1 / 10 ^ 4
    ∧ 0 ≤ resS1.transfer_delay_min ∧ 0 ≤ (9 / 20 : ℚ)
    ∧ 0 ≤ resS1.transfer_risk_bps := by
  refine ⟨(score_item_net_edge_identity itemS1 "taker_default" 1 1 1 1 (9 / 20) 8
      (3 / 5) {} {}).1, by decide, by norm_num, ?_⟩
  exact (score_item_net_edge_identity itemS1 "taker_default" 1 1 1 1 (9 / 20) 8
      (3 / 5) {} {}).2.2 (by decide) (by norm_num)

/-- C5: with the fee table disabled (`estimate_total_fee_bps` returns `none`)
the scored `fees_bps` is the candidate's embedded fees times `fee_multiplier`
(6-decimal rounding), `fee_model_used` is false, and the whole scored record is
the same as with any other disabled fee table; with the table enabled, the
base fees are the roundtrip total `(buy_fee + sell_fee)` times the strategy
roundtrip side multiplier (rounded), to which the multiplier is then applied. -/
theorem score_item_fee_table_refinement (item : Candidate) (p : String)
    (fm sm lm tdm pen mn mr : ℚ) (cb : ConstraintBook) (ft ft' : FeeTable) :
    (ft.enabled = false →
      (score_item item p fm sm lm tdm pen mn mr cb ft).fees_bps
          = rnd 6 (item.fees_bps * fm)
        ∧ (score_item item p fm sm lm tdm pen mn mr cb ft).fee_model_used = false
        ∧ (ft'.enabled = false →
            score_item item p fm sm lm tdm pen mn mr cb ft
              = score_item item p fm sm lm tdm pen mn mr cb ft'))
    ∧ (ft.enabled = true →
        (score_item item p fm sm lm tdm pen mn mr cb ft).fee_model_used = true
        ∧ (score_item item p fm sm lm tdm pen mn mr cb ft).fee_model_base_fees_bps
            = rnd 6 ((ft.side_fee_bps item.buy_venue (ft.fee_mode_for p)
                + ft.side_fee_bps item.sell_venue (ft.fee_mode_for p))
              * max 0 ((ft.strategy_roundtrip_side_multiplier.lookup
                  (⟨trimL item.strategy_type.toList⟩ : String)).getD 1.0))
        ∧ (score_item item p fm sm lm tdm pen mn mr cb ft).fees_bps
            = rnd 6
              ((score_item item p fm sm lm tdm pen mn mr cb ft).fee_model_base_fees_bps
                * fm)) := by
  constructor
  · intro h
    have he : ft.estimate_total_fee_bps item p = none := by
      simp [FeeTable.estimate_total_fee_bps, h]
    refine ⟨?_, ?_, fun h' => ?_⟩
    · simp [score_item, he]
    · simp [score_item, he]
    · have he' : ft'.estimate_total_fee_bps item p = none := by
        simp [FeeTable.estimate_total_fee_bps, h']
      simp [score_item, he, he']
  · intro h
    have he : ft.estimate_total_fee_bps item p =
        some (rnd 6 ((ft.side_fee_bps item.buy_venue (ft.fee_mode_for p)
            + ft.side_fee_bps item.sell_venue (ft.fee_mode_for p))
          * max 0 ((ft.strategy_roundtrip_side_multiplier.lookup
              (⟨trimL item.strategy_type.toList⟩ : String)).getD 1.0)),
          ft.fee_mode_for p) := by
      simp [FeeTable.estimate_total_fee_bps, h]
    refine ⟨?_, ?_, ?_⟩
    · simp [score_item, he]
    · simp [score_item, he]
    · simp [score_item, he]

/-- Fee table enabled with no rules: scoring then uses the built-in default
buckets. -/
def ftOn : FeeTable := { enabled := true }

/-- Witness for C5: S1 candidate against a disabled and an enabled fee table. -/
theorem score_item_fee_table_refinement_witness :
    ((score_item itemS1 "taker_default" 1 1 1 1 (9 / 20) 8 (3 / 5) {} {}).fees_bps
        = rnd 6 (itemS1.fees_bps * 1)
      ∧ (score_item itemS1 "taker_default" 1 1 1 1 (9 / 20) 8 (3 / 5) {} {}).fee_model_used
        = false
      ∧ score_item itemS1 "taker_default" 1 1 1 1 (9 / 20) 8 (3 / 5) {} {}
        = score_item itemS1 "taker_default" 1 1 1 1 (9 / 20) 8 (3 / 5) {} {})
    ∧ ((score_item itemS1 "taker_default" 1 1 1 1 (9 / 20) 8 (3 / 5) {} ftOn).fee_model_used
        = true
      ∧ (score_item itemS1 "taker_default" 1 1 1 1 (9 / 20) 8 (3 / 5) {} ftOn).fee_model_base_fees_bps
        = rnd 6 ((ftOn.side_fee_bps itemS1.buy_venue (ftOn.fee_mode_for "taker_default")
            + ftOn.side_fee_bps itemS1.sell_venue (ftOn.fee_mode_for "taker_default"))
          * max 0 ((ftOn.strategy_roundtrip_side_multiplier.lookup
              (⟨trimL itemS1.strategy_type.toList⟩ : String)).getD 1.0))
      ∧ (score_item itemS1 "taker_default" 1 1 1 1 (9 / 20) 8 (3 / 5) {} ftOn).fees_bps
        = rnd 6
          ((score_item itemS1 "taker_default" 1 1 1 1 (9 / 20) 8 (3 / 5) {} ftOn).fee_model_base_fees_bps
            * 1)) := by
  have h1 := (score_item_fee_table_refinement itemS1 "taker_default" 1 1 1 1 (9 / 20) 8
    (3 / 5) {} {} {}).1 rfl
  have h2 := (score_item_fee_table_refinement itemS1 "taker_default" 1 1 1 1 (9 / 20) 8
    (3 / 5) {} ftOn {}).2 rfl
  exact ⟨⟨h1.1, h1.2.1, h1.2.2 rfl⟩, h2⟩

/-- The constraint evaluation `score_item` performs for a candidate and book
(strategy stripped, leverage notional and hold hours resolved as in
`score_item`). -/
def score_item_eval (item : Candidate) (cb : ConstraintBook) : ConstraintEval :=
  let strategy_type : String := ⟨trimL item.strategy_type.toList⟩
  eval_constraints cb item strategy_type item.size_usd
    (rnd 6 (item.size_usd * cb.leverage_notional_multiplier strategy_type))
    (cb.hold_hours strategy_type)

/-- Unfolding lemma: the qualification flag of a scored item. -/
theorem score_item_is_qualified_eq (item : Candidate) (p : String)
    (fm sm lm tdm pen mn mr : ℚ) (cb : ConstraintBook) (ft : FeeTable) :
    (score_item item p fm sm lm tdm pen mn mr cb ft).is_qualified =
      (decide (mn ≤ (score_item item p fm sm lm tdm pen mn mr cb ft).net_edge_bps)
        && decide ((score_item item p fm sm lm tdm pen mn mr cb ft).risk_score ≤ mr)
        && !((score_item_eval item cb).position_limit_exceeded
          || (score_item_eval item cb).borrow_limit_exceeded
          || (score_item_eval item cb).inventory_unavailable
          || (score_item_eval item cb).leverage_limit_exceeded)) :=
  rfl

/-- Unfolding lemma: the rejection reasons of a scored item. -/
theorem score_item_rejection_reasons_eq (item : Candidate) (p : String)
    (fm sm lm tdm pen mn mr : ℚ) (cb : ConstraintBook) (ft : FeeTable) :
    (score_item item p fm sm lm tdm pen mn mr cb ft).rejection_reasons =
      (if (score_item item p fm sm lm tdm pen mn mr cb ft).is_qualified then []
      else rejection_reasons_fn item.gross_edge_bps
        (score_item item p fm sm lm tdm pen mn mr cb ft).fees_bps
        (score_item item p fm sm lm tdm pen mn mr cb ft).slippage_bps
        (score_item item p fm sm lm tdm pen mn mr cb ft).latency_risk_bps
        (score_item item p fm sm lm tdm pen mn mr cb ft).borrow_cost_bps
        (score_item item p fm sm lm tdm pen mn mr cb ft).net_edge_bps
        (score_item item p fm sm lm tdm pen mn mr cb ft).risk_score
        (score_item item p fm sm lm tdm pen mn mr cb ft).transfer_risk_bps
        mn mr cb.enabled
        (score_item_eval item cb).position_limit_exceeded
        (score_item_eval item cb).inventory_unavailable
        (score_item_eval item cb).borrow_limit_exceeded
        (score_item_eval item cb).leverage_limit_exceeded) :=
  rfl

/-- Membership characterization for `rejection_reasons_fn`. -/
theorem rejection_reasons_fn_mem (g f s l b n r t mn mr : ℚ)
    (en pos inv bor lev : Bool) :
    ("net_edge_below_threshold" ∈ rejection_reasons_fn g f s l b n r t mn mr en pos inv bor lev
        ↔ n < mn)
    ∧ ("risk_score_above_threshold" ∈ rejection_reasons_fn g f s l b n r t mn mr en pos inv bor lev
        ↔ mr < r)
    ∧ ("position_limit_exceeded" ∈ rejection_reasons_fn g f s l b n r t mn mr en pos inv bor lev
        ↔ (en = true ∧ pos = true))
    ∧ ("inventory_unavailable" ∈ rejection_reasons_fn g f s l b n r t mn mr en pos inv bor lev
        ↔ (en = true ∧ inv = true))
    ∧ ("borrow_limit_exceeded" ∈ rejection_reasons_fn g f s l b n r t mn mr en pos inv bor lev
        ↔ (en = true ∧ bor = true))
    ∧ ("leverage_limit_exceeded" ∈ rejection_reasons_fn g f s l b n r t mn mr en pos inv bor lev
        ↔ (en = true ∧ lev = true)) := by
  refine ⟨?_, ?_, ?_, ?_, ?_, ?_⟩ <;>
    simp [rejection_reasons_fn]

/-- When the book is disabled every constraint output is zero / false. -/
theorem score_item_eval_disabled (item : Candidate) (cb : ConstraintBook)
    (h : cb.enabled = false) : score_item_eval item cb = {} := by
  simp [score_item_eval, eval_constraints, h]

/-- C2: `is_qualified` holds iff the net edge clears the threshold, the risk
score is within bounds and no constraint flag fired; when not qualified, each
failed condition contributes exactly its rejection reason (constraint reasons
when constraints are enabled), and `rejection_reasons` is non-empty exactly
when `is_qualified` is false. -/
theorem score_item_qualification_and_rejections (item : Candidate) (p : String)
    (fm sm lm tdm pen mn mr : ℚ) (cb : ConstraintBook) (ft : FeeTable)
    (res : ScoredOpportunity) (ce : ConstraintEval)
    (hres : res = score_item item p fm sm lm tdm pen mn mr cb ft)
    (hce : ce = score_item_eval item cb) :
    (res.is_qualified = true ↔
      (mn ≤ res.net_edge_bps ∧ res.risk_score ≤ mr
        ∧ ¬(ce.position_limit_exceeded = true ∨ ce.inventory_unavailable = true
            ∨ ce.borrow_limit_exceeded = true ∨ ce.leverage_limit_exceeded = true)))
    ∧ (res.is_qualified = true → res.rejection_reasons = [])
    ∧ (res.is_qualified = false →
        ("net_edge_below_threshold" ∈ res.rejection_reasons ↔ res.net_edge_bps < mn)
        ∧ ("risk_score_above_threshold" ∈ res.rejection_reasons ↔ mr < res.risk_score)
        ∧ (cb.enabled = true →
            ("position_limit_exceeded" ∈ res.rejection_reasons
                ↔ ce.position_limit_exceeded = true)
            ∧ ("inventory_unavailable" ∈ res.rejection_reasons
                ↔ ce.inventory_unavailable = true)
            ∧ ("borrow_limit_exceeded" ∈ res.rejection_reasons
                ↔ ce.borrow_limit_exceeded = true)
            ∧ ("leverage_limit_exceeded" ∈ res.rejection_reasons
                ↔ ce.leverage_limit_exceeded = true))
        ∧ res.rejection_reasons ≠ []) := by
  subst hres hce
  have hq := score_item_is_qualified_eq item p fm sm lm tdm pen mn mr cb ft
  have hrr := score_item_rejection_reasons_eq item p fm sm lm tdm pen mn mr cb ft
  have hiff : (score_item item p fm sm lm tdm pen mn mr cb ft).is_qualified = true ↔
      (mn ≤ (score_item item p fm sm lm tdm pen mn mr cb ft).net_edge_bps
        ∧ (score_item item p fm sm lm tdm pen mn mr cb ft).risk_score ≤ mr
        ∧ ¬((score_item_eval item cb).position_limit_exceeded = true
            ∨ (score_item_eval item cb).inventory_unavailable = true
            ∨ (score_item_eval item cb).borrow_limit_exceeded = true
            ∨ (score_item_eval item cb).leverage_limit_exceeded = true)) := by
    rw [hq]
    simp only [Bool.and_eq_true, decide_eq_true_eq, Bool.not_eq_true',
      Bool.or_eq_false_iff, not_or, Bool.not_eq_true]
    tauto
  refine ⟨hiff, fun h => ?_, fun h => ?_⟩
  · rw [hrr, if_pos h]
  · have hrr' : (score_item item p fm sm lm tdm pen mn mr cb ft).rejection_reasons =
        rejection_reasons_fn item.gross_edge_bps
          (score_item item p fm sm lm tdm pen mn mr cb ft).fees_bps
          (score_item item p fm sm lm tdm pen mn mr cb ft).slippage_bps
          (score_item item p fm sm lm tdm pen mn mr cb ft).latency_risk_bps
          (score_item item p fm sm lm tdm pen mn mr cb ft).borrow_cost_bps
          (score_item item p fm sm lm tdm pen mn mr cb ft).net_edge_bps
          (score_item item p fm sm lm tdm pen mn mr cb ft).risk_score
          (score_item item p fm sm lm tdm pen mn mr cb ft).transfer_risk_bps
          mn mr cb.enabled
          (score_item_eval item cb).position_limit_exceeded
          (score_item_eval item cb).inventory_unavailable
          (score_item_eval item cb).borrow_limit_exceeded
          (score_item_eval item cb).leverage_limit_exceeded := by
      rw [hrr, if_neg]
      simp [h]
    have hmem := rejection_reasons_fn_mem item.gross_edge_bps
      (score_item item p fm sm lm tdm pen mn mr cb ft).fees_bps
      (score_item item p fm sm lm tdm pen mn mr cb ft).slippage_bps
      (score_item item p fm sm lm tdm pen mn mr cb ft).latency_risk_bps
      (score_item item p fm sm lm tdm pen mn mr cb ft).borrow_cost_bps
      (score_item item p fm sm lm tdm pen mn mr cb ft).net_edge_bps
      (score_item item p fm sm lm tdm pen mn mr cb ft).risk_score
      (score_item item p fm sm lm tdm pen mn mr cb ft).transfer_risk_bps
      mn mr cb.enabled
      (score_item_eval item cb).position_limit_exceeded
      (score_item_eval item cb).inventory_unavailable
      (score_item_eval item cb).borrow_limit_exceeded
      (score_item_eval item cb).leverage_limit_exceeded
    rw [hrr']
    refine ⟨hmem.1, hmem.2.1, fun hen => ?_, ?_⟩
    · refine ⟨?_, ?_, ?_, ?_⟩
      · rw [hmem.2.2.1]
        simp [hen]
      · rw [hmem.2.2.2.1]
        simp [hen]
      · rw [hmem.2.2.2.2.1]
        simp [hen]
      · rw [hmem.2.2.2.2.2]
        simp [hen]
    · -- non-emptiness: at least one failed condition contributes a reason
      have hnotq : ¬(mn ≤ (score_item item p fm sm lm tdm pen mn mr cb ft).net_edge_bps
          ∧ (score_item item p fm sm lm tdm pen mn mr cb ft).risk_score ≤ mr
          ∧ ¬((score_item_eval item cb).position_limit_exceeded = true
              ∨ (score_item_eval item cb).inventory_unavailable = true
              ∨ (score_item_eval item cb).borrow_limit_exceeded = true
              ∨ (score_item_eval item cb).leverage_limit_exceeded = true)) := by
        intro hc
        rw [← hiff] at hc
        rw [h] at hc
        exact Bool.false_ne_true hc
      by_cases h1 : (score_item item p fm sm lm tdm pen mn mr cb ft).net_edge_bps < mn
      · exact List.ne_nil_of_mem (hmem.1.2 h1)
      · by_cases h2 : mr < (score_item item p fm sm lm tdm pen mn mr cb ft).risk_score
        · exact List.ne_nil_of_mem (hmem.2.1.2 h2)
        · have hflag : (score_item_eval item cb).position_limit_exceeded = true
              ∨ (score_item_eval item cb).inventory_unavailable = true
              ∨ (score_item_eval item cb).borrow_limit_exceeded = true
              ∨ (score_item_eval item cb).leverage_limit_exceeded = true := by
            by_contra hno
            exact hnotq ⟨le_of_not_lt h1, le_of_not_lt h2, hno⟩
          have hen : cb.enabled = true := by
            by_contra hcb
            have hdis := score_item_eval_disabled item cb (Bool.eq_false_iff.2 hcb)
            rw [hdis] at hflag
            simp [ConstraintEval.position_limit_exceeded] at hflag
          rcases hflag with hf | hf | hf | hf
          · exact List.ne_nil_of_mem (hmem.2.2.1.2 ⟨hen, hf⟩)
          · exact List.ne_nil_of_mem (hmem.2.2.2.1.2 ⟨hen, hf⟩)
          · exact List.ne_nil_of_mem (hmem.2.2.2.2.1.2 ⟨hen, hf⟩)
          · exact List.ne_nil_of_mem (hmem.2.2.2.2.2.2 ⟨hen, hf⟩)

/-- Rule row for the S3 borrow-blocker scenario: zero inventory, 5000 USD
borrow capacity. -/
def rowS3 : ConstraintRow := { available_inventory_usd := some 0, max_borrow_usd := some 5000 }

/-- Constraint book for the S3 scenario. -/
def bookS3 : ConstraintBook :=
  { enabled := true
    rules := [(("binance", "BTC"), rowS3), (("bybit", "BTC"), rowS3)] }

/-- S1 candidate scored against the S3 constraint book. -/
def resS3 : ScoredOpportunity :=
  score_item itemS1 "taker_default" 1 1 1 1 (9 / 20) 8 (3 / 5) bookS3 {}

/-- Constraint evaluation of the S3 scenario. -/
def ceS3 : ConstraintEval := score_item_eval itemS1 bookS3

unseal Rat.mul Rat.add Rat.sub Rat.inv Rat.ofScientific in
/-- Witness for C2 at the S3 borrow-blocker input (constraints enabled, item
rejected with a non-empty reason list). -/
theorem score_item_qualification_and_rejections_witness :
    (resS3.is_qualified = true ↔
      (8 ≤ resS3.net_edge_bps ∧ resS3.risk_score ≤ 3 / 5
        ∧ ¬(ceS3.position_limit_exceeded = true ∨ ceS3.inventory_unavailable = true
            ∨ ceS3.borrow_limit_exceeded = true ∨ ceS3.leverage_limit_exceeded = true)))
    ∧ ("net_edge_below_threshold" ∈ resS3.rejection_reasons ↔ resS3.net_edge_bps < 8)
    ∧ ("risk_score_above_threshold" ∈ resS3.rejection_reasons ↔ 3 / 5 < resS3.risk_score)
    ∧ ("position_limit_exceeded" ∈ resS3.rejection_reasons
        ↔ ceS3.position_limit_exceeded = true)
    ∧ ("inventory_unavailable" ∈ resS3.rejection_reasons
        ↔ ceS3.inventory_unavailable = true)
    ∧ ("borrow_limit_exceeded" ∈ resS3.rejection_reasons
        ↔ ceS3.borrow_limit_exceeded = true)
    ∧ ("leverage_limit_exceeded" ∈ resS3.rejection_reasons
        ↔ ceS3.leverage_limit_exceeded = true)
    ∧ resS3.rejection_reasons ≠ [] := by
  have h := score_item_qualification_and_rejections itemS1 "taker_default" 1 1 1 1
    (9 / 20) 8 (3 / 5) bookS3 {} resS3 ceS3 rfl rfl
  have h3 := h.2.2 (by decide)
  have h4 := h3.2.2.1 rfl
  exact ⟨h.1, h3.1, h3.2.1, h4.1, h4.2.1, h4.2.2.1, h4.2.2.2, h3.2.2.2⟩

/-- Unfolding lemma: the emitted `risk_score`. -/
theorem score_item_risk_score_eq (item : Candidate) (p : String)
    (fm sm lm tdm pen mn mr : ℚ) (cb : ConstraintBook) (ft : FeeTable) :
    (score_item item p fm sm lm tdm pen mn mr cb ft).risk_score =
      risk_score_fn (score_item item p fm sm lm tdm pen mn mr cb ft).fees_bps
        (score_item item p fm sm lm tdm pen mn mr cb ft).slippage_bps
        (score_item item p fm sm lm tdm pen mn mr cb ft).latency_risk_bps
        (score_item_eval item cb).borrow_cost_bps
        (score_item item p fm sm lm tdm pen mn mr cb ft).net_edge_bps
        (score_item item p fm sm lm tdm pen mn mr cb ft).transfer_risk_bps :=
  rfl

/-- Modelled from the spec's words (§4.6 step 5, parenthetical clause): the
claimed no-borrow weighting 0.20/0.25/0.20/0.20/0.15 over the fee, slippage,
latency, transfer and edge-buffer components, used only for comparison with
the code's risk score. -/
def spec_no_borrow_risk_score (fees_bps slippage_bps latency_risk_bps
    transfer_risk_bps net_edge_bps : ℚ) : ℚ :=
  rnd 4
    (0.20 * clamp01 (fees_bps / 20)
      + 0.25 * clamp01 (slippage_bps / 20)
      + 0.20 * clamp01 (latency_risk_bps / 12)
      + 0.20 * clamp01 (transfer_risk_bps / 12)
      + 0.15 * clamp01 ((10 - max net_edge_bps 0) / 10))

unseal Rat.mul Rat.add Rat.sub Rat.inv Rat.ofScientific in
/-- Counterexample to C3: on scenario S1 with the constraint book disabled the
code's risk score is 0.0943, not the ≈0.109 the claimed 0.20/0.25/0.20/0.20/0.15
weighting yields. -/
theorem risk_weights_claim_counterexample :
    resS1.constraints_enabled = false
    ∧ resS1.risk_score = 943 / 10000
    ∧ spec_no_borrow_risk_score resS1.fees_bps resS1.slippage_bps
        resS1.latency_risk_bps resS1.transfer_risk_bps resS1.net_edge_bps
      = 1092 / 10000
    ∧ resS1.risk_score ≠ spec_no_borrow_risk_score resS1.fees_bps resS1.slippage_bps
        resS1.latency_risk_bps resS1.transfer_risk_bps resS1.net_edge_bps
    ∧ ¬(|resS1.risk_score - 109 / 1000| ≤ 1 / 1000) := by
  refine ⟨rfl, by decide, by decide, by decide, by decide⟩

unseal Rat.mul Rat.add Rat.sub Rat.inv Rat.ofScientific in
/-- C3 (amended): the scorer always uses the single weighting
0.18/0.22/0.16/0.16/0.14/0.14; when the constraint book is disabled the borrow
component is zero, so for S1 under `taker_default` the risk score is 0.0943,
the item qualifies and the dominant drag is `fees`. -/
theorem risk_score_single_weighting :
    (∀ (item : Candidate) (p : String) (fm sm lm tdm pen mn mr : ℚ)
      (cb : ConstraintBook) (ft : FeeTable), cb.enabled = false →
      (score_item item p fm sm lm tdm pen mn mr cb ft).risk_score =
        rnd 4
          (0.18 * clamp01 ((score_item item p fm sm lm tdm pen mn mr cb ft).fees_bps / 20)
            + 0.22 * clamp01 ((score_item item p fm sm lm tdm pen mn mr cb ft).slippage_bps / 20)
            + 0.16 * clamp01 ((score_item item p fm sm lm tdm pen mn mr cb ft).latency_risk_bps / 12)
            + 0.16 * clamp01 ((score_item item p fm sm lm tdm pen mn mr cb ft).transfer_risk_bps / 12)
            + 0.14 * 0
            + 0.14 * clamp01 ((10 - max (score_item item p fm sm lm tdm pen mn mr cb ft).net_edge_bps 0) / 10)))
    ∧ resS1.risk_score = 943 / 10000
    ∧ resS1.is_qualified = true
    ∧ resS1.dominant_drag = "fees" := by
  refine ⟨fun item p fm sm lm tdm pen mn mr cb ft h => ?_, ?_, ?_, ?_⟩
  · rw [score_item_risk_score_eq, score_item_eval_disabled _ _ h]
    unfold risk_score_fn
    congr 1
  all_goals decide

/-- Witness for the amended C3 at the S1 input with a disabled book. -/
theorem risk_score_single_weighting_witness :
    resS1.risk_score =
      rnd 4
        (0.18 * clamp01 (resS1.fees_bps / 20)
          + 0.22 * clamp01 (resS1.slippage_bps / 20)
          + 0.16 * clamp01 (resS1.latency_risk_bps / 12)
          + 0.16 * clamp01 (resS1.transfer_risk_bps / 12)
          + 0.14 * 0
          + 0.14 * clamp01 ((10 - max resS1.net_edge_bps 0) / 10)) :=
  risk_score_single_weighting.1 itemS1 "taker_default" 1 1 1 1 (9 / 20) 8 (3 / 5) {} {} rfl

/-- Characterization of a guarded decidable gate as a conjunction. -/
theorem if_decide_eq_true_iff {c d : Prop} [Decidable c] [Decidable d] :
    ((if c then decide d else false) = true) ↔ (c ∧ d) := by
  split_ifs with h <;> simp [h]

/-- Candidate for the leverage-cap scenarios (S4 of the spec). -/
def itemS4 : Candidate :=
  { strategy_type := "funding_carry_cex_cex"
    symbol := "BTC/USDT"
    buy_venue := "binance_perp"
    sell_venue := "bybit_perp"
    gross_edge_bps := 20
    fees_bps := 4
    slippage_bps := 3
    latency_risk_bps := 1
    transfer_delay_min := 0
    size_usd := 10000 }

/-- Rule row for S4: 5000 USD inventory, leverage cap 3. -/
def rowS4 : ConstraintRow := { available_inventory_usd := some 5000, max_leverage := some 3 }

/-- Constraint book for S4. -/
def bookS4 : ConstraintBook :=
  { enabled := true
    rules := [(("binance", "BTC"), rowS4), (("bybit", "BTC"), rowS4)] }

/-- S4 scored result. -/
def resS4 : ScoredOpportunity :=
  score_item itemS4 "taker_default" 1 1 1 1 (9 / 20) 8 (3 / 5) bookS4 {}

/-- S4 constraint evaluation. -/
def ceS4 : ConstraintEval := score_item_eval itemS4 bookS4

/-- Candidate/book pair on which the claimed leverage-gate condition and the
code disagree: the strategy leverage multiplier is customized to 0, so the
notional is 0 and the code skips the leverage gate even though the cap is
positive and the equity base is zero. -/
def itemC6 : Candidate :=
  { strategy_type := "cex_cex"
    symbol := "BTC/USDT"
    buy_venue := "binance"
    sell_venue := "binance"
    gross_edge_bps := 20
    fees_bps := 4
    slippage_bps := 3
    latency_risk_bps := 1
    transfer_delay_min := 2
    size_usd := 10000 }

/-- Rule row for the counterexample: zero inventory, leverage cap 3. -/
def rowC6 : ConstraintRow := { available_inventory_usd := some 0, max_leverage := some 3 }

/-- Constraint book for the counterexample (custom zero multiplier for
`cex_cex`, as a loaded `strategy_leverage_notional_multiplier` override). -/
def bookC6 : ConstraintBook :=
  { enabled := true
    strategy_leverage_notional_multiplier := [("cex_cex", 0.0)]
    rules := [(("binance", "BTC"), rowC6)] }

/-- Constraint evaluation of the counterexample input. -/
def ceC6 : ConstraintEval := score_item_eval itemC6 bookC6

unseal Rat.mul Rat.add Rat.sub Rat.inv Rat.ofScientific in
/-- Counterexample to C6: with constraints enabled, `max_leverage = 3 > 0` and
`equity_base = 0 ≤ 0`, the claimed condition says `leverage_limit_exceeded`
must hold, but the code leaves it false because `leverage_notional_usd = 0`
(the claim omits the code's `leverage_notional_usd > 0` guard). -/
theorem leverage_gate_claim_counterexample :
    bookC6.enabled = true
    ∧ ceC6.max_leverage = 3
    ∧ ceC6.inventory_available_usd = 0
    ∧ ceC6.leverage_used = 0
    ∧ ceC6.leverage_limit_exceeded = false
    ∧ ¬(ceC6.leverage_limit_exceeded = true ↔
        (0 < ceC6.max_leverage
          ∧ (max 0 ceC6.inventory_available_usd ≤ 0
            ∨ ceC6.max_leverage + EPS < ceC6.leverage_used))) := by
  refine ⟨rfl, by decide, by decide, by decide, by decide, by decide⟩

unseal Rat.mul Rat.add Rat.sub Rat.inv Rat.ofScientific in
/-- C6 (amended): with constraints enabled, `leverage_notional_usd` is
`size_usd` times the strategy leverage multiplier (6-decimal rounding),
`leverage_used` is `leverage_notional_usd / equity_base` (rounded) when both
notional and equity are positive and 0 otherwise, and
`leverage_limit_exceeded` holds iff `max_leverage > 0` AND
`leverage_notional_usd > 0` and (`equity_base ≤ 0` or
`leverage_used > max_leverage + 1e-9`); in particular for S4
(`funding_carry_cex_cex`, size 10000, multiplier 2, inventory 5000, cap 3) the
notional is 20000, `leverage_used = 4` and the gate fires. -/
theorem leverage_gate_characterization :
    (∀ (item : Candidate) (p : String) (fm sm lm tdm pen mn mr : ℚ)
      (cb : ConstraintBook) (ft : FeeTable) (ce : ConstraintEval)
      (notional equity : ℚ),
      cb.enabled = true →
      ce = score_item_eval item cb →
      notional = rnd 6 (item.size_usd
        * cb.leverage_notional_multiplier (⟨trimL item.strategy_type.toList⟩ : String)) →
      equity = max 0 ce.inventory_available_usd →
      (score_item item p fm sm lm tdm pen mn mr cb ft).leverage_notional_usd
          = rnd 6 notional
        ∧ ce.leverage_used
          = (if 0 < notional ∧ 0 < equity then rnd 6 (notional / equity) else 0)
        ∧ (score_item item p fm sm lm tdm pen mn mr cb ft).leverage_used
          = rnd 6 ce.leverage_used
        ∧ (ce.leverage_limit_exceeded = true ↔
            (0 < ce.max_leverage ∧ 0 < notional
              ∧ (equity ≤ 0 ∨ ce.max_leverage + EPS < ce.leverage_used))))
    ∧ resS4.leverage_notional_usd = 20000
    ∧ resS4.leverage_used = 4
    ∧ resS4.max_leverage = 3
    ∧ ceS4.leverage_limit_exceeded = true
    ∧ resS4.is_qualified = false
    ∧ "leverage_limit_exceeded" ∈ resS4.rejection_reasons := by
  refine ⟨?_, by decide, by decide, by decide, by decide, by decide, by decide⟩
  intro item p fm sm lm tdm pen mn mr cb ft ce notional equity h hce hnot heq
  subst hce hnot heq
  refine ⟨rfl, ?_, rfl, ?_⟩
  · simp only [score_item_eval, eval_constraints, h, if_true]
  · simp only [score_item_eval, eval_constraints, h, if_true]
    rw [if_decide_eq_true_iff]
    tauto

/-- Leverage notional of the S4 scenario. -/
def notionalS4 : ℚ :=
  rnd 6 (itemS4.size_usd
    * bookS4.leverage_notional_multiplier (⟨trimL itemS4.strategy_type.toList⟩ : String))

/-- Equity base of the S4 scenario. -/
def equityS4 : ℚ := max 0 ceS4.inventory_available_usd

/-- Witness for the amended C6 at the S4 input. -/
theorem leverage_gate_characterization_witness :
    resS4.leverage_notional_usd = rnd 6 notionalS4
    ∧ ceS4.leverage_used
      = (if 0 < notionalS4 ∧ 0 < equityS4 then rnd 6 (notionalS4 / equityS4) else 0)
    ∧ resS4.leverage_used = rnd 6 ceS4.leverage_used
    ∧ (ceS4.leverage_limit_exceeded = true ↔
        (0 < ceS4.max_leverage ∧ 0 < notionalS4
          ∧ (equityS4 ≤ 0 ∨ ceS4.max_leverage + EPS < ceS4.leverage_used))) :=
  leverage_gate_characterization.1 itemS4 "taker_default" 1 1 1 1 (9 / 20) 8 (3 / 5)
    bookS4 {} ceS4 notionalS4 equityS4 rfl rfl rfl rfl

/-- Unfolding lemma: the emitted `max_position_usd`. -/
theorem score_item_max_position_eq (item : Candidate) (p : String)
    (fm sm lm tdm pen mn mr : ℚ) (cb : ConstraintBook) (ft : FeeTable) :
    (score_item item p fm sm lm tdm pen mn mr cb ft).max_position_usd =
      (score_item_eval item cb).max_position_usd :=
  rfl

/-- C10: with constraints enabled and an effective max position of at least
5e17 USD (in particular the sentinel 1e18 that applies when
`max_position_usd` is absent from both the rule and the defaults), the emitted
`max_position_usd` is exactly 0 — indistinguishable from a configured zero cap,
which also renders as 0 — while `position_limit_exceeded` is still evaluated
against the sentinel, so it never fires for an unbounded cap at any size up to
the sentinel. -/
theorem unbounded_position_cap_rendering :
    (∀ (item : Candidate) (p : String) (fm sm lm tdm pen mn mr : ℚ)
      (cb : ConstraintBook) (ft : FeeTable) (eff : ℚ),
      cb.enabled = true →
      eff = min
          (cb.constraints_for item.buy_venue (asset_from_symbol item.symbol)).max_position_usd
          (cb.constraints_for item.sell_venue (asset_from_symbol item.symbol)).max_position_usd →
      (5 * 10 ^ 17 ≤ eff →
        (score_item item p fm sm lm tdm pen mn mr cb ft).max_position_usd = 0)
      ∧ ((score_item_eval item cb).position_limit_exceeded = true
          ↔ eff + EPS < item.size_usd)
      ∧ (eff = 10 ^ 18 → item.size_usd ≤ 10 ^ 18 →
          (score_item_eval item cb).position_limit_exceeded = false))
    ∧ read_limit {} {} (fun r => r.max_position_usd) true = UNBOUNDED_USD
    ∧ UNBOUNDED_USD = 10 ^ 18
    ∧ render_limit UNBOUNDED_USD = 0
    ∧ render_limit 0 = 0 := by
  refine ⟨?_, rfl, rfl, ?_, ?_⟩
  · intro item p fm sm lm tdm pen mn mr cb ft eff h heff
    have hmp : (score_item_eval item cb).max_position_usd = render_limit eff := by
      subst heff
      simp only [score_item_eval, eval_constraints, h, if_true]
    have hpl : (score_item_eval item cb).position_limit_exceeded
        = decide (eff + EPS < item.size_usd) := by
      subst heff
      simp only [score_item_eval, eval_constraints, h, if_true]
    refine ⟨fun hbig => ?_, ?_, fun hsent hsize => ?_⟩
    · rw [score_item_max_position_eq, hmp, render_limit, if_pos]
      rw [UNBOUNDED_USD]
      norm_num
      linarith
    · rw [hpl]
      simp
    · rw [hpl, hsent]
      simp only [decide_eq_false_iff_not, not_lt]
      have hEPS : (0 : ℚ) < EPS := by norm_num [EPS]
      linarith
  · rw [render_limit, if_pos]
    rw [UNBOUNDED_USD]
    norm_num
  · rw [render_limit, if_neg]
    · rw [rnd]
      norm_num
    · rw [UNBOUNDED_USD]
      norm_num

/-- Constraint book that is enabled but has no rules and no defaults: every
position cap falls back to the unbounded sentinel. -/
def bookEmptyOn : ConstraintBook := { enabled := true }

/-- Effective max position of S1's candidate under the empty enabled book. -/
def effC10 : ℚ :=
  min (bookEmptyOn.constraints_for itemS1.buy_venue (asset_from_symbol itemS1.symbol)).max_position_usd
    (bookEmptyOn.constraints_for itemS1.sell_venue (asset_from_symbol itemS1.symbol)).max_position_usd

unseal Rat.mul Rat.add Rat.sub Rat.inv Rat.ofScientific in
/-- Witness for C10 at the S1 candidate under the empty enabled book. -/
theorem unbounded_position_cap_rendering_witness :
    (score_item itemS1 "taker_default" 1 1 1 1 (9 / 20) 8 (3 / 5) bookEmptyOn {}).max_position_usd = 0
    ∧ ((score_item_eval itemS1 bookEmptyOn).position_limit_exceeded = true
        ↔ effC10 + EPS < itemS1.size_usd)
    ∧ (score_item_eval itemS1 bookEmptyOn).position_limit_exceeded = false := by
  have h := unbounded_position_cap_rendering.1 itemS1 "taker_default" 1 1 1 1 (9 / 20)
    8 (3 / 5) bookEmptyOn {} effC10 rfl rfl
  exact ⟨h.1 (by decide), h.2.1, h.2.2 (by decide) (by decide)⟩

/-- Transitivity of the shortlist ranking comparison. -/
theorem shortlist_key_ge_trans : ∀ (a b c : ScoredOpportunity),
    shortlist_key_ge a b = true → shortlist_key_ge b c = true →
    shortlist_key_ge a c = true := by
  intro a b c hab hbc
  simp only [shortlist_key_ge, decide_eq_true_eq] at *
  rcases hab with h | ⟨h1, h2⟩ <;> rcases hbc with h' | ⟨h1', h2'⟩
  · exact Or.inl (h'.trans h)
  · exact Or.inl (h1' ▸ h)
  · exact Or.inl (h1 ▸ h')
  · exact Or.inr ⟨h1.trans h1', h2'.trans h2⟩

/-- Totality of the shortlist ranking comparison. -/
theorem shortlist_key_ge_total : ∀ (a b : ScoredOpportunity),
    shortlist_key_ge a b || shortlist_key_ge b a := by
  intro a b
  simp only [shortlist_key_ge, Bool.or_eq_true, decide_eq_true_eq]
  by_cases h : (if a.is_qualified then (1 : ℕ) else 0) = (if b.is_qualified then 1 else 0)
  · rcases le_total b.net_edge_bps a.net_edge_bps with h2 | h2
    · exact Or.inl (Or.inr ⟨h, h2⟩)
    · exact Or.inr (Or.inr ⟨h.symm, h2⟩)
  · rcases Nat.lt_or_ge (if a.is_qualified then 1 else 0) (if b.is_qualified then 1 else 0)
      with h2 | h2
    · exact Or.inr (Or.inl h2)
    · exact Or.inl (Or.inl (lt_of_le_of_ne h2 (fun he => h he.symm)))

/-- C4 (amended): the final shortlist is sorted by `is_qualified` descending
then `net_edge_bps` descending, and the sort is stable: any two items already
in key order keep their input order (ties therefore preserve input order, not
a lexicographic order on `(symbol, buy_venue, sell_venue)`). -/
theorem rank_shortlist_sorted :
    (∀ l : List ScoredOpportunity,
      (rank_shortlist l).Pairwise (fun a b => shortlist_key_ge a b = true))
    ∧ (∀ (a b : ScoredOpportunity) (l : List ScoredOpportunity),
        shortlist_key_ge a b = true → List.Sublist [a, b] l →
          List.Sublist [a, b] (rank_shortlist l)) := by
  constructor
  · intro l
    simpa using @List.sorted_mergeSort ScoredOpportunity shortlist_key_ge
      shortlist_key_ge_trans shortlist_key_ge_total l
  · intro a b l hab hsub
    apply List.sublist_mergeSort shortlist_key_ge_trans shortlist_key_ge_total _ hsub
    simp [hab]

/-- Lexicographic `≤` on character lists (the tie-break order the claim
asserts). -/
def lexLeB : List Char → List Char → Bool
  | [], _ => true
  | _ :: _, [] => false
  | a :: as, b :: bs => if a < b then true else if b < a then false else lexLeB as bs

/-- The claim's tie-break order: lexicographic on the triple
`(symbol, buy_venue, sell_venue)`. -/
def triple_lex_le (a b : ScoredOpportunity) : Bool :=
  if a.symbol = b.symbol then
    if a.buy_venue = b.buy_venue then lexLeB a.sell_venue.toList b.sell_venue.toList
    else lexLeB a.buy_venue.toList b.buy_venue.toList
  else lexLeB a.symbol.toList b.symbol.toList

/-- S1 candidate with symbol `AAA/USDT`. -/
def itemA : Candidate := { itemS1 with symbol := "AAA/USDT" }

/-- S1 candidate with symbol `BBB/USDT`. -/
def itemB : Candidate := { itemS1 with symbol := "BBB/USDT" }

/-- Scored `AAA/USDT` item. -/
def oppA : ScoredOpportunity :=
  score_item itemA "taker_default" 1 1 1 1 (9 / 20) 8 (3 / 5) {} {}

/-- Scored `BBB/USDT` item. -/
def oppB : ScoredOpportunity :=
  score_item itemB "taker_default" 1 1 1 1 (9 / 20) 8 (3 / 5) {} {}

unseal List.merge List.mergeSort Rat.mul Rat.add Rat.sub Rat.inv Rat.ofScientific in
/-- Counterexample to C4: two scored items tied on `(is_qualified,
net_edge_bps)` keep their input order in the shortlist, so the earlier one can
be lexicographically greater on `(symbol, buy_venue, sell_venue)` — the sort is
stable, not lexicographic on ties. -/
theorem shortlist_lex_tiebreak_counterexample :
    rank_shortlist [oppB, oppA] = [oppB, oppA]
    ∧ oppB.is_qualified = oppA.is_qualified
    ∧ oppB.net_edge_bps = oppA.net_edge_bps
    ∧ oppB.buy_venue = oppA.buy_venue
    ∧ oppB.sell_venue = oppA.sell_venue
    ∧ triple_lex_le oppB oppA = false := by
  refine ⟨by decide, by decide, by decide, by decide, by decide, by decide⟩

unseal List.merge List.mergeSort Rat.mul Rat.add Rat.sub Rat.inv Rat.ofScientific in
/-- Witness for the amended C4: the tied pair keeps its input order. -/
theorem rank_shortlist_sorted_witness :
    shortlist_key_ge oppB oppA = true
    ∧ List.Sublist [oppB, oppA] (rank_shortlist [oppB, oppA]) := by
  have hge : shortlist_key_ge oppB oppA = true := by decide
  exact ⟨hge, rank_shortlist_sorted.2 oppB oppA [oppB, oppA] hge (List.Sublist.refl _)⟩


/-- A list suffix of an append with matching length is the appended part. -/
theorem suffix_eq_of_length_eq {l t s : List Char} (h : t <:+ l ++ s)
    (hl : t.length = s.length) : t = s := by
  obtain ⟨u, hu⟩ := h
  exact (List.append_inj' hu hl).2

/-- A successful `_parse_symbol` returns a quote from the priority list. -/
theorem parse_symbol_aux_quote_mem (quotes : List String) (s : String)
    (b q : String) (h : parse_symbol_aux quotes s = some (b, q)) : q ∈ quotes := by
  induction quotes with
  | nil => simp [parse_symbol_aux] at h
  | cons q0 rest ih =>
    rw [parse_symbol_aux] at h
    split at h
    · simp only [Option.some.injEq, Prod.mk.injEq] at h
      exact h.2 ▸ List.mem_cons_self q0 rest
    · exact List.mem_cons_of_mem q0 (ih h)

/-- Taking all but a length-`n` tail of an append recovers the front part. -/
theorem take_append_sub (l s : List Char) :
    (l ++ s).take ((l ++ s).length - s.length) = l := by
  rw [List.length_append, Nat.add_sub_cancel]
  exact List.take_left l s

/-- C8: concatenating any non-empty base with `USDT` or `USDC` parses back to
exactly `(BASE, quote)`; a symbol ending in neither suffix parses to `none`
(so normalization skips it); every quote emitted by `normalize_quotes` has
symbol of the form `BASE/QUOTE` with quote `USDT` or `USDC`. -/
theorem symbol_split_roundtrip :
    (∀ BASE : String, BASE ≠ "" →
      parse_symbol (BASE ++ "USDT") = some (BASE, "USDT")
      ∧ parse_symbol (BASE ++ "USDC") = some (BASE, "USDC"))
    ∧ (∀ s : String,
        ¬("USDT".toList <:+ s.toList) → ¬("USDC".toList <:+ s.toList) →
        parse_symbol s = none)
    ∧ (∀ (run_at : String) (symbols : List String)
        (binance bybit : List (String × ℚ × ℚ)) (q : Quote),
        q ∈ normalize_quotes run_at symbols binance bybit →
        q.symbol = q.base ++ "/" ++ q.quote ∧ (q.quote = "USDT" ∨ q.quote = "USDC")) := by
  refine ⟨?_, ?_, ?_⟩
  · intro BASE hne
    have hpos : 0 < BASE.toList.length := by
      rcases Nat.eq_zero_or_pos BASE.toList.length with h0 | h0
      · refine absurd ?_ hne
        cases BASE with
        | mk d =>
          exact congrArg String.mk (by simpa [String.toList] using List.length_eq_zero.1 h0)
      · exact h0
    constructor
    · have hsuf : "USDT".toList.isSuffixOf (BASE ++ "USDT").toList = true :=
        List.isSuffixOf_iff_suffix.2 (List.suffix_append BASE.toList "USDT".toList)
      have hlt : "USDT".toList.length < (BASE ++ "USDT").toList.length := by
        show "USDT".toList.length < (BASE.toList ++ "USDT".toList).length
        rw [List.length_append]
        omega
      rw [parse_symbol, parse_symbol_aux, if_pos ⟨hsuf, hlt⟩]
      have htake := take_append_sub BASE.toList "USDT".toList
      exact congrArg (fun z => some ((⟨z⟩ : String), "USDT")) htake
    · have hnot : ¬("USDT".toList.isSuffixOf (BASE ++ "USDC").toList = true
          ∧ "USDT".toList.length < (BASE ++ "USDC").toList.length) := by
        rintro ⟨hs, -⟩
        have hsfx : "USDT".toList <:+ BASE.toList ++ "USDC".toList :=
          List.isSuffixOf_iff_suffix.1 hs
        have := suffix_eq_of_length_eq hsfx (by decide)
        exact absurd this (by decide)
      have hsuf : "USDC".toList.isSuffixOf (BASE ++ "USDC").toList = true :=
        List.isSuffixOf_iff_suffix.2 (List.suffix_append BASE.toList "USDC".toList)
      have hlt : "USDC".toList.length < (BASE ++ "USDC").toList.length := by
        show "USDC".toList.length < (BASE.toList ++ "USDC".toList).length
        rw [List.length_append]
        omega
      rw [parse_symbol, parse_symbol_aux, if_neg hnot, parse_symbol_aux,
        if_pos ⟨hsuf, hlt⟩]
      have htake := take_append_sub BASE.toList "USDC".toList
      exact congrArg (fun z => some ((⟨z⟩ : String), "USDC")) htake
  · intro s hT hC
    have hnT : ¬("USDT".toList.isSuffixOf s.toList = true
        ∧ "USDT".toList.length < s.toList.length) := by
      rintro ⟨hs, -⟩
      exact hT (List.isSuffixOf_iff_suffix.1 hs)
    have hnC : ¬("USDC".toList.isSuffixOf s.toList = true
        ∧ "USDC".toList.length < s.toList.length) := by
      rintro ⟨hs, -⟩
      exact hC (List.isSuffixOf_iff_suffix.1 hs)
    rw [parse_symbol, parse_symbol_aux, if_neg hnT, parse_symbol_aux, if_neg hnC,
      parse_symbol_aux]
  · intro run_at symbols binance bybit q hq
    simp only [normalize_quotes, List.mem_flatMap, List.mem_filterMap] at hq
    obtain ⟨vs, hvs, symbol, hsym, hmk⟩ := hq
    cases hlb : vs.2.lookup symbol with
    | none =>
      rw [hlb] at hmk
      simp at hmk
    | some ba =>
      rw [hlb] at hmk
      cases hp : parse_symbol symbol with
      | none =>
        rw [hp] at hmk
        simp at hmk
      | some bq =>
        rw [hp] at hmk
        simp only [Option.some.injEq] at hmk
        have hquote : bq.2 ∈ ["USDT", "USDC"] := by
          apply parse_symbol_aux_quote_mem ["USDT", "USDC"] symbol bq.1 bq.2
          rw [← parse_symbol, hp]
        constructor
        · rw [← hmk]
        · rw [← hmk]
          simpa using hquote

/-- The quote record normalization emits for `BTCUSDT` at bid 100 / ask 101. -/
def qW : Quote :=
  { detected_at := "t"
    venue := "binance"
    market := "spot"
    symbol := "BTC/USDT"
    base := "BTC"
    quote := "USDT"
    bid_price := rnd 10 100
    ask_price := rnd 10 101
    mid_price := rnd 10 ((100 + 101) / 2)
    spread_bps := rnd 6 (((101 - 100) / ((100 + 101) / 2)) * 10000) }

unseal Rat.mul Rat.add Rat.sub Rat.inv Rat.ofScientific in
/-- Witness for C8 at concrete symbols. -/
theorem symbol_split_roundtrip_witness :
    (parse_symbol ("BTC" ++ "USDT") = some ("BTC", "USDT")
      ∧ parse_symbol ("BTC" ++ "USDC") = some ("BTC", "USDC"))
    ∧ parse_symbol "ETHBTC" = none
    ∧ (qW.symbol = qW.base ++ "/" ++ qW.quote
      ∧ (qW.quote = "USDT" ∨ qW.quote = "USDC")) := by
  refine ⟨symbol_split_roundtrip.1 "BTC" (by decide), ?_, ?_⟩
  · exact symbol_split_roundtrip.2.1 "ETHBTC"
      (fun h => absurd (List.isSuffixOf_iff_suffix.2 h) (by decide))
      (fun h => absurd (List.isSuffixOf_iff_suffix.2 h) (by decide))
  · exact symbol_split_roundtrip.2.2 "t" ["BTCUSDT"] [("BTCUSDT", (100, 101))] [] qW
      (by decide)

/-- Scalar value of `Char.ofNat` at a valid code point. -/
theorem char_toNat_ofNat (n : Nat) (h : n.isValidChar) : (Char.ofNat n).toNat = n := by
  simp [Char.ofNat, dif_pos h, Char.ofNatAux, Char.toNat, UInt32.toNat]

/-- Scalar value of `Char.toLower`. -/
theorem toLower_toNat (c : Char) :
    (Char.toLower c).toNat =
      if 65 ≤ c.toNat ∧ c.toNat ≤ 90 then c.toNat + 32 else c.toNat := by
  unfold Char.toLower
  by_cases h : c.toNat ≥ 65 ∧ c.toNat ≤ 90
  · rw [if_pos h, if_pos h]
    exact char_toNat_ofNat _ (Or.inl (by omega))
  · rw [if_neg h, if_neg h]

/-- ASCII lower-casing is idempotent. -/
theorem toLower_toLower (c : Char) :
    Char.toLower (Char.toLower c) = Char.toLower c := by
  unfold Char.toLower
  by_cases h : c.toNat ≥ 65 ∧ c.toNat ≤ 90
  · rw [if_pos h]
    have hv : (c.toNat + 32).isValidChar := Or.inl (by omega)
    rw [char_toNat_ofNat _ hv]
    rw [if_neg (by omega)]
  · rw [if_neg h, if_neg h]

/-- Lower-casing preserves whitespace-ness. -/
theorem wsB_toLower (c : Char) : wsB (Char.toLower c) = wsB c := by
  simp only [wsB, toLower_toNat, decide_eq_decide]
  split <;> omega

/-- Lowercase alphanumeric characters are fixed by `Char.toLower`. -/
theorem toLower_fixed_of_lowerAlnum (c : Char) (h : isLowerAlnum c = true) :
    Char.toLower c = c := by
  simp only [isLowerAlnum, decide_eq_true_eq] at h
  unfold Char.toLower
  rw [if_neg (by omega)]

/-- Lowercase alphanumeric characters are not whitespace. -/
theorem wsB_false_of_lowerAlnum (c : Char) (h : isLowerAlnum c = true) :
    wsB c = false := by
  simp only [isLowerAlnum, decide_eq_true_eq] at h
  simp only [wsB, decide_eq_false_iff_not]
  omega

/-- Dropping a satisfied run twice is the same as dropping it once. -/
theorem dropWhile_dropWhile (p : α → Bool) (l : List α) :
    (l.dropWhile p).dropWhile p = l.dropWhile p := by
  cases h : l.dropWhile p with
  | nil => rfl
  | cons a as =>
    have hm := List.head?_dropWhile_not p l
    rw [h] at hm
    simp only [List.head?_cons] at hm
    rw [List.dropWhile_cons_of_neg]
    simp [hm]

/-- If no element of a list satisfies `p`, `dropWhile` keeps the list. -/
theorem dropWhile_eq_self_of_none (p : α → Bool) (l : List α)
    (h : ∀ c ∈ l, p c = false) : l.dropWhile p = l := by
  cases l with
  | nil => rfl
  | cons a as =>
    rw [List.dropWhile_cons_of_neg]
    simp [h a (List.mem_cons_self a as)]

/-- If no element of a list satisfies `p`, `takeWhile` keeps the list. -/
theorem takeWhile_eq_self_of_all (p : α → Bool) (l : List α)
    (h : ∀ c ∈ l, p c = true) : l.takeWhile p = l := by
  induction l with
  | nil => rfl
  | cons a as ih =>
    rw [List.takeWhile_cons_of_pos (h a (List.mem_cons_self a as))]
    rw [ih (fun c hc => h c (List.mem_cons_of_mem a hc))]

/-- If every element of a list satisfies `p`, `dropWhile` empties it. -/
theorem dropWhile_eq_nil_of_all (p : α → Bool) (l : List α)
    (h : ∀ c ∈ l, p c = true) : l.dropWhile p = [] := by
  induction l with
  | nil => rfl
  | cons a as ih =>
    rw [List.dropWhile_cons_of_pos (h a (List.mem_cons_self a as))]
    exact ih (fun c hc => h c (List.mem_cons_of_mem a hc))

/-- The back-trim step: drop trailing elements satisfying `p`. -/
def backTrim (p : α → Bool) (l : List α) : List α :=
  (l.reverse.dropWhile p).reverse

/-- `trimL` is front-trim then back-trim. -/
theorem trimL_eq (s : List Char) : trimL s = backTrim wsB (s.dropWhile wsB) := rfl

/-- Back-trimming twice is the same as back-trimming once. -/
theorem backTrim_backTrim (p : α → Bool) (l : List α) :
    backTrim p (backTrim p l) = backTrim p l := by
  unfold backTrim
  rw [List.reverse_reverse, dropWhile_dropWhile]

/-- The back-trim of a list is one of its prefixes. -/
theorem backTrim_pfx (p : α → Bool) (l : List α) : (backTrim p l) <+: l := by
  have h := List.dropWhile_suffix (l := l.reverse) p
  have h2 := List.reverse_prefix.2 h
  rwa [List.reverse_reverse] at h2

/-- A prefix of a `dropWhile` fixed point is itself a fixed point. -/
theorem dropWhile_eq_self_of_pfx (p : α → Bool) (u v : List α)
    (hu : u.dropWhile p = u) (hv : v <+: u) : v.dropWhile p = v := by
  cases v with
  | nil => rfl
  | cons a as =>
    obtain ⟨w, hw⟩ := hv
    have hpa : p a = false := by
      by_contra hcon
      have hpa' : p a = true := by
        cases hpa2 : p a with
        | false => exact absurd hpa2 hcon
        | true => rfl
      have hu' : u = a :: (as ++ w) := by rw [← hw]; rfl
      rw [hu', List.dropWhile_cons_of_pos hpa'] at hu
      have hlen := congrArg List.length hu
      have hle := (List.dropWhile_suffix (l := as ++ w) p).sublist.length_le
      simp only [List.length_cons] at hlen
      omega
    rw [List.dropWhile_cons_of_neg]
    simp [hpa]

/-- Front-trimming a back-trimmed front-trim changes nothing. -/
theorem dropWhile_backTrim (p : α → Bool) (l : List α) :
    (backTrim p (l.dropWhile p)).dropWhile p = backTrim p (l.dropWhile p) :=
  dropWhile_eq_self_of_pfx p (l.dropWhile p) _
    (dropWhile_dropWhile p l) (backTrim_pfx p _)

/-- Python's `strip()` is idempotent. -/
theorem trimL_trimL (s : List Char) : trimL (trimL s) = trimL s := by
  rw [trimL_eq, trimL_eq, dropWhile_backTrim, backTrim_backTrim]

/-- Lower-casing commutes with trimming. -/
theorem trimL_lowerL (s : List Char) : trimL (lowerL s) = lowerL (trimL s) := by
  have hf : (wsB ∘ Char.toLower) = wsB := funext wsB_toLower
  unfold trimL lowerL
  rw [List.dropWhile_map, hf, ← List.map_reverse, List.dropWhile_map, hf,
    ← List.map_reverse]

/-- Lower-casing is idempotent on lists. -/
theorem lowerL_lowerL (s : List Char) : lowerL (lowerL s) = lowerL s := by
  unfold lowerL
  rw [List.map_map]
  exact List.map_congr_left (fun c _ => toLower_toLower c)

/-- `strip().lower()` is idempotent. -/
theorem stripLower_idem (s : List Char) : stripLower (stripLower s) = stripLower s := by
  unfold stripLower
  rw [trimL_lowerL, trimL_trimL, lowerL_lowerL]

/-- Every token is non-empty, consists of `p`-characters, and is an infix of
the input (bounded-length induction over the splitting recursion). -/
theorem tokensBy_mem_aux (p : Char → Bool) (n : ℕ) :
    ∀ (s : List Char), s.length ≤ n → ∀ t ∈ tokensBy p s,
      t ≠ [] ∧ (∀ c ∈ t, p c = true) ∧ t <:+: s := by
  induction n with
  | zero =>
    intro s hs t ht
    have hnil : s = [] := List.length_eq_zero.1 (Nat.le_zero.1 hs)
    subst hnil
    simp [tokensBy] at ht
  | succ n ih =>
    intro s hs t ht
    cases s with
    | nil => simp [tokensBy] at ht
    | cons c cs =>
      rw [tokensBy] at ht
      by_cases hc : p c = true
      · rw [if_pos hc] at ht
        rcases List.mem_cons.1 ht with rfl | hmem
        · refine ⟨by simp, ?_, ?_⟩
          · intro x hx
            rcases List.mem_cons.1 hx with rfl | hx'
            · exact hc
            · exact List.mem_takeWhile_imp hx'
          · have hpre := List.takeWhile_prefix (l := cs) p
            obtain ⟨u, hu⟩ := hpre
            exact ⟨[], u, by simp [hu]⟩
        · have hlen : (cs.dropWhile p).length ≤ n := by
            have := (List.dropWhile_suffix (l := cs) p).sublist.length_le
            simp only [List.length_cons] at hs
            omega
          have hres := ih (cs.dropWhile p) hlen t hmem
          refine ⟨hres.1, hres.2.1, ?_⟩
          exact List.infix_cons
            (hres.2.2.trans (List.dropWhile_suffix (l := cs) p).isInfix)
      · rw [if_neg hc] at ht
        have hlen : cs.length ≤ n := by
          simp only [List.length_cons] at hs
          omega
        have hres := ih cs hlen t ht
        exact ⟨hres.1, hres.2.1, List.infix_cons hres.2.2⟩

/-- Specialization of `tokensBy_mem_aux` without the length bound. -/
theorem tokensBy_mem (p : Char → Bool) (s t : List Char) (h : t ∈ tokensBy p s) :
    t ≠ [] ∧ (∀ c ∈ t, p c = true) ∧ t <:+: s :=
  tokensBy_mem_aux p s.length s (Nat.le_refl _) t h

/-- A non-empty all-`p` string is its own single token. -/
theorem tokensBy_all (p : Char → Bool) (s : List Char) (hne : s ≠ [])
    (hall : ∀ c ∈ s, p c = true) : tokensBy p s = [s] := by
  cases s with
  | nil => exact absurd rfl hne
  | cons c cs =>
    rw [tokensBy, if_pos (hall c (List.mem_cons_self c cs))]
    rw [takeWhile_eq_self_of_all p cs (fun x hx => hall x (List.mem_cons_of_mem c hx))]
    rw [dropWhile_eq_nil_of_all p cs (fun x hx => hall x (List.mem_cons_of_mem c hx))]
    simp [tokensBy]

/-- The Boolean substring test agrees with `List.IsInfix`. -/
theorem isSubstrL_iff (t s : List Char) : isSubstrL t s = true ↔ t <:+: s := by
  induction s with
  | nil =>
    rw [isSubstrL]
    rw [ List.isPrefixOf_iff_prefix]
    simp
  | cons a s ih =>
    rw [isSubstrL, Bool.or_eq_true, ih, List.infix_cons_iff]
    rw [ List.isPrefixOf_iff_prefix]

/-- Membership is invariant under the stable length-descending insertion. -/
theorem mem_insertLenDesc (a b : List Char) (l : List (List Char)) :
    b ∈ insertLenDesc a l ↔ b = a ∨ b ∈ l := by
  induction l with
  | nil => simp [insertLenDesc]
  | cons x xs ih =>
    rw [insertLenDesc]
    split
    · simp [List.mem_cons]
    · simp only [List.mem_cons, ih]
      tauto

/-- Membership is invariant under the length-descending sort. -/
theorem mem_sortLenDesc (b : List Char) (l : List (List Char)) :
    b ∈ sortLenDesc l ↔ b ∈ l := by
  induction l with
  | nil => simp [sortLenDesc]
  | cons x xs ih =>
    rw [sortLenDesc, mem_insertLenDesc, ih]
    simp [List.mem_cons]

/-- `strip().lower()` fixes a lowercase-alphanumeric token. -/
theorem stripLower_fixed_of_alnum (t : List Char)
    (h : ∀ c ∈ t, isLowerAlnum c = true) : stripLower t = t := by
  unfold stripLower
  have htr : trimL t = t := by
    unfold trimL
    rw [dropWhile_eq_self_of_none wsB t (fun c hc => wsB_false_of_lowerAlnum c (h c hc))]
    rw [dropWhile_eq_self_of_none wsB t.reverse
      (fun c hc => wsB_false_of_lowerAlnum c (h c (List.mem_reverse.1 hc)))]
    exact List.reverse_reverse t
  rw [htr]
  unfold lowerL
  rw [List.map_congr_left (fun c hc => toLower_fixed_of_lowerAlnum c (h c hc))]
  exact List.map_id t

/-- A stored known venue (non-empty, strip-lower fixed) is a fixed point of
canonicalization. -/
theorem canonicalVenueL_fixed_known (kv : List (List Char)) (v : List Char)
    (hv : v ≠ []) (hfix : stripLower v = v) (hmem : v ∈ kv) :
    canonicalVenueL kv v = v := by
  simp only [canonicalVenueL, hfix, if_neg hv, if_pos hmem]

/-- A non-stopword alphanumeric token with no known venue inside it is a fixed
point of canonicalization. -/
theorem canonicalVenueL_fixed_token (kv : List (List Char)) (t : List Char)
    (ht_ne : t ≠ []) (ht_al : ∀ c ∈ t, isLowerAlnum c = true)
    (ht_nin : ∀ w ∈ kv, ¬(w ≠ [] ∧ w <:+: t))
    (ht_stop : t ∉ VENUE_STOPWORDS) :
    canonicalVenueL kv t = t := by
  have hfix := stripLower_fixed_of_alnum t ht_al
  have hmem : t ∉ kv := fun hmem => ht_nin t hmem ⟨ht_ne, List.infix_refl t⟩
  have hfind : (sortLenDesc kv).find? (fun v => !v.isEmpty && isSubstrL v t) = none := by
    apply List.find?_eq_none.2
    intro w hw hcon
    have hwkv := (mem_sortLenDesc w kv).1 hw
    simp only [Bool.and_eq_true, Bool.not_eq_true', List.isEmpty_eq_false,
      isSubstrL_iff] at hcon
    exact ht_nin w hwkv ⟨hcon.1, hcon.2⟩
  have htok : tokensBy isLowerAlnum t = [t] := tokensBy_all _ t ht_ne ht_al
  have hc : decide (t ∈ VENUE_STOPWORDS) = false := decide_eq_false ht_stop
  have hstopfind : ([t] : List (List Char)).find?
      (fun x => !VENUE_STOPWORDS.contains x) = some t := by
    simp [List.find?_cons, hc]
  simp only [canonicalVenueL, hfix, if_neg ht_ne, if_neg hmem, hfind, htok, hstopfind]

/-- List-level idempotence of canonicalization for inputs whose stripped
lowercase form is non-empty, over well-formed known-venue keys. -/
theorem canonicalVenueL_idem (kv : List (List Char)) (raw : List Char)
    (hkv : ∀ w ∈ kv, w ≠ [] ∧ stripLower w = w)
    (hne : stripLower raw ≠ []) :
    canonicalVenueL kv (canonicalVenueL kv raw) = canonicalVenueL kv raw := by
  by_cases hmem : stripLower raw ∈ kv
  · have hr : canonicalVenueL kv raw = stripLower raw := by
      simp only [canonicalVenueL, if_neg hne, if_pos hmem]
    rw [hr]
    exact canonicalVenueL_fixed_known kv _ hne (stripLower_idem raw) hmem
  · cases hfind : (sortLenDesc kv).find?
        (fun v => !v.isEmpty && isSubstrL v (stripLower raw)) with
    | some v =>
      have hr : canonicalVenueL kv raw = v := by
        simp only [canonicalVenueL, if_neg hne, if_neg hmem, hfind]
      have hvkv : v ∈ kv := (mem_sortLenDesc v kv).1 (List.mem_of_find?_eq_some hfind)
      rw [hr]
      exact canonicalVenueL_fixed_known kv v (hkv v hvkv).1 (hkv v hvkv).2 hvkv
    | none =>
      cases htokfind : (tokensBy isLowerAlnum (stripLower raw)).find?
          (fun x => !VENUE_STOPWORDS.contains x) with
      | some t =>
        have hr : canonicalVenueL kv raw = t := by
          simp only [canonicalVenueL, if_neg hne, if_neg hmem, hfind, htokfind]
        have htmem : t ∈ tokensBy isLowerAlnum (stripLower raw) :=
          List.mem_of_find?_eq_some htokfind
        have hprops := tokensBy_mem isLowerAlnum _ t htmem
        have hstop : t ∉ VENUE_STOPWORDS := by
          have hp := List.find?_some htokfind
          simp only [Bool.not_eq_true', List.contains, List.elem_eq_mem,
            decide_eq_false_iff_not] at hp
          exact hp
        rw [hr]
        apply canonicalVenueL_fixed_token kv t hprops.1 hprops.2.1 ?_ hstop
        rintro w hw ⟨hwne, hwsub⟩
        have hwin : w <:+: stripLower raw := hwsub.trans hprops.2.2
        have hnone := List.find?_eq_none.1 hfind w ((mem_sortLenDesc w kv).2 hw)
        apply hnone
        simp only [Bool.and_eq_true, Bool.not_eq_true', List.isEmpty_eq_false,
          isSubstrL_iff]
        exact ⟨hwne, hwin⟩
      | none =>
        have hr : canonicalVenueL kv raw = stripLower raw := by
          simp only [canonicalVenueL, if_neg hne, if_neg hmem, hfind, htokfind]
        rw [hr]
        simp only [canonicalVenueL, stripLower_idem raw, if_neg hne, if_neg hmem,
          hfind, htokfind]

/-- C9 (amended): canonicalization is idempotent for every fee table whose
stored venue keys are non-empty and strip-lower fixed (as the loader
guarantees) and every raw venue whose stripped lowercase form is non-empty. -/
theorem canonical_venue_idem_nonempty :
    ∀ (ft : FeeTable) (raw : String),
      (∀ w ∈ ft.known_venues, w.toList ≠ [] ∧ stripLower w.toList = w.toList) →
      stripLower raw.toList ≠ [] →
      canonical_venue ft.known_venues (canonical_venue ft.known_venues raw)
        = canonical_venue ft.known_venues raw := by
  intro ft raw hkv hne
  unfold canonical_venue
  refine congrArg String.mk (canonicalVenueL_idem _ _ ?_ hne)
  intro w' hw'
  obtain ⟨w, hw, rfl⟩ := List.mem_map.1 hw'
  exact hkv w hw

/-- Fee table with the single venue `know`, inside whose rules the default
venue `unknown` has a known venue as substring. -/
def ftKnow : FeeTable := { rules := [(("know", "spot"), {})] }

/-- Counterexample to C9: on the empty venue string canonicalization yields
`unknown`, and canonicalizing `unknown` against a table knowing venue `know`
yields `know`, so idempotence fails. -/
theorem canonical_venue_idempotent_counterexample :
    canonical_venue ftKnow.known_venues "" = "unknown"
    ∧ canonical_venue ftKnow.known_venues "unknown" = "know"
    ∧ canonical_venue ftKnow.known_venues (canonical_venue ftKnow.known_venues "")
      ≠ canonical_venue ftKnow.known_venues "" := by
  refine ⟨by decide, by decide, by decide⟩

/-- Witness for the amended C9 at a concrete raw venue. -/
theorem canonical_venue_idem_nonempty_witness :
    canonical_venue ftKnow.known_venues
        (canonical_venue ftKnow.known_venues "Binance_SPOT")
      = canonical_venue ftKnow.known_venues "Binance_SPOT" :=
  canonical_venue_idem_nonempty ftKnow "Binance_SPOT" (by decide) (by decide)

/-- Both walk accumulators are non-negative on positive ladders. -/
theorem buy_walk_nonneg (asks : List (ℚ × ℚ))
    (hpos : ∀ pq ∈ asks, 0 < pq.1 ∧ 0 < pq.2) (r : ℚ) :
    0 ≤ (buy_walk asks r).1 ∧ 0 ≤ (buy_walk asks r).2 := by
  induction asks generalizing r with
  | nil => simp [buy_walk]
  | cons pq rest ih =>
    obtain ⟨p, q⟩ := pq
    have hp := (hpos (p, q) (List.mem_cons_self _ _)).1
    rw [buy_walk]
    by_cases h0 : min r (p * q) ≤ 0
    · rw [if_pos h0]
      simp
    · rw [if_neg h0]
      push_neg at h0
      by_cases hr : r ≤ p * q
      · rw [if_pos hr]
        refine ⟨?_, ?_⟩
        · show (0 : ℚ) ≤ min r (p * q)
          exact le_of_lt h0
        · show (0 : ℚ) ≤ min r (p * q) / p
          positivity
      · rw [if_neg hr]
        have ih' := ih (fun x hx => hpos x (List.mem_cons_of_mem _ hx)) (r - p * q)
        refine ⟨?_, ?_⟩
        · show (0 : ℚ) ≤ min r (p * q) + (buy_walk rest (r - p * q)).1
          nlinarith [ih'.1]
        · show (0 : ℚ) ≤ min r (p * q) / p + (buy_walk rest (r - p * q)).2
          have hdiv : 0 ≤ min r (p * q) / p := by positivity
          nlinarith [ih'.2]

/-- The spent accumulator never exceeds the request (clamped at zero). -/
theorem buy_walk_spent_le (asks : List (ℚ × ℚ)) (r : ℚ) :
    (buy_walk asks r).1 ≤ max r 0 := by
  induction asks generalizing r with
  | nil => simp [buy_walk, le_max_right]
  | cons pq rest ih =>
    obtain ⟨p, q⟩ := pq
    rw [buy_walk]
    by_cases h0 : min r (p * q) ≤ 0
    · rw [if_pos h0]
      simp [le_max_right]
    · rw [if_neg h0]
      push_neg at h0
      have hr0 : 0 < r := (lt_min_iff.1 h0).1
      by_cases hr : r ≤ p * q
      · rw [if_pos hr]
        simp only [min_eq_left hr]
        exact le_max_left r 0
      · rw [if_neg hr]
        push_neg at hr
        have ih' := ih (r - p * q)
        have hmax : max (r - p * q) 0 = r - p * q := by
          have h1 : (0 : ℚ) < min r (p * q) := h0
          have h2 : 0 < p * q := lt_min_iff.1 h0 |>.2
          rw [max_eq_left]
          linarith
        rw [hmax] at ih'
        simp only [min_eq_right hr.le]
        calc p * q + (buy_walk rest (r - p * q)).1 ≤ p * q + (r - p * q) := by linarith
        _ = r := by ring
        _ ≤ max r 0 := le_max_left r 0

/-- A non-positive request buys nothing. -/
theorem buy_walk_nonpos (asks : List (ℚ × ℚ)) (r : ℚ) (hr : r ≤ 0) :
    buy_walk asks r = (0, 0) := by
  cases asks with
  | nil => rfl
  | cons pq rest =>
    obtain ⟨p, q⟩ := pq
    rw [buy_walk, if_pos (le_trans (min_le_left r (p * q)) hr)]

/-- Upper bound on the base bought: at least `pmin` is paid per unit, so a
filled walk buys at most `r / pmin` base (stated multiplicatively). -/
theorem buy_walk_upper (asks : List (ℚ × ℚ)) (pmin : ℚ)
    (hpos : ∀ pq ∈ asks, 0 < pq.1 ∧ 0 < pq.2)
    (hbound : ∀ pq ∈ asks, pmin ≤ pq.1) :
    ∀ r : ℚ, 0 < r → (buy_walk asks r).1 = r →
      pmin * (buy_walk asks r).2 ≤ r := by
  induction asks with
  | nil =>
    intro r hr hfill
    rw [buy_walk] at hfill
    have hz : (0 : ℚ) = r := hfill
    exact absurd hz.symm (ne_of_gt hr)
  | cons pq rest ih =>
    intro r hr hfill
    obtain ⟨p, q⟩ := pq
    have hp := (hpos (p, q) (List.mem_cons_self _ _)).1
    have hq := (hpos (p, q) (List.mem_cons_self _ _)).2
    have hpm : pmin ≤ p := hbound (p, q) (List.mem_cons_self _ _)
    have hlevel : 0 < p * q := by positivity
    have h0 : ¬(min r (p * q) ≤ 0) := by
      push_neg
      exact lt_min hr hlevel
    rw [buy_walk, if_neg h0] at hfill ⊢
    by_cases hcase : r ≤ p * q
    · rw [if_pos hcase] at hfill ⊢
      show pmin * (min r (p * q) / p) ≤ r
      rw [min_eq_left hcase]
      calc pmin * (r / p) ≤ p * (r / p) := by
            apply mul_le_mul_of_nonneg_right hpm
            positivity
        _ = r := by field_simp
    · rw [if_neg hcase] at hfill ⊢
      push_neg at hcase
      have htake : min r (p * q) = p * q := min_eq_right hcase.le
      have hfill' : (buy_walk rest (r - p * q)).1 = r - p * q := by
        have : min r (p * q) + (buy_walk rest (r - p * q)).1 = r := hfill
        rw [htake] at this
        linarith
      have hrest : 0 < r - p * q := by linarith
      have ihres := ih (fun x hx => hpos x (List.mem_cons_of_mem _ hx))
        (fun x hx => hbound x (List.mem_cons_of_mem _ hx)) (r - p * q) hrest hfill'
      show pmin * (min r (p * q) / p + (buy_walk rest (r - p * q)).2) ≤ r
      rw [htake]
      have hqdiv : p * q / p = q := by field_simp
      rw [hqdiv]
      have hpq : pmin * q ≤ p * q := by nlinarith
      nlinarith [ihres]

/-- Unfolding of the buy walk on a level that takes a positive amount. -/
theorem buy_walk_cons_fill (p q r : ℚ) (rest : List (ℚ × ℚ))
    (h0 : 0 < min r (p * q)) :
    buy_walk ((p, q) :: rest) r =
      if r ≤ p * q then (min r (p * q), min r (p * q) / p)
      else (min r (p * q) + (buy_walk rest (r - p * q)).1,
            min r (p * q) / p + (buy_walk rest (r - p * q)).2) := by
  rw [buy_walk, if_neg (not_le.2 h0)]

/-- Increment bound: extra quote spent at prices at least `pmin` buys at most
`(r2 - r1) / pmin` extra base (stated multiplicatively), on an ascending
ladder. -/
theorem buy_walk_increment (asks : List (ℚ × ℚ)) (pmin : ℚ)
    (hpos : ∀ pq ∈ asks, 0 < pq.1 ∧ 0 < pq.2)
    (hbound : ∀ pq ∈ asks, pmin ≤ pq.1)
    (hsorted : asks.Pairwise (fun a b => a.1 ≤ b.1)) :
    ∀ r1 r2 : ℚ, 0 < r1 → r1 ≤ r2 →
      (buy_walk asks r1).1 = r1 → (buy_walk asks r2).1 = r2 →
      pmin * ((buy_walk asks r2).2 - (buy_walk asks r1).2) ≤ r2 - r1 := by
  induction asks with
  | nil =>
    intro r1 r2 hr1 _ hfill1 _
    rw [buy_walk] at hfill1
    have hz : (0 : ℚ) = r1 := hfill1
    exact absurd hz.symm (ne_of_gt hr1)
  | cons pq rest ih =>
    intro r1 r2 hr1 hle hfill1 hfill2
    obtain ⟨p, q⟩ := pq
    have hp := (hpos (p, q) (List.mem_cons_self _ _)).1
    have hq := (hpos (p, q) (List.mem_cons_self _ _)).2
    have hpm : pmin ≤ p := hbound (p, q) (List.mem_cons_self _ _)
    have hlevel : 0 < p * q := by positivity
    have hr2 : 0 < r2 := lt_of_lt_of_le hr1 hle
    have hposrest : ∀ x ∈ rest, 0 < x.1 ∧ 0 < x.2 :=
      fun x hx => hpos x (List.mem_cons_of_mem _ hx)
    have hrest_ge_p : ∀ x ∈ rest, p ≤ x.1 :=
      fun x hx => (List.pairwise_cons.1 hsorted).1 x hx
    have hsortedrest := (List.pairwise_cons.1 hsorted).2
    rw [buy_walk_cons_fill p q r1 rest (lt_min hr1 hlevel)] at hfill1 ⊢
    rw [buy_walk_cons_fill p q r2 rest (lt_min hr2 hlevel)] at hfill2 ⊢
    by_cases hc2 : r2 ≤ p * q
    · have hc1 : r1 ≤ p * q := le_trans hle hc2
      rw [if_pos hc1] at hfill1 ⊢
      rw [if_pos hc2] at hfill2 ⊢
      show pmin * (min r2 (p * q) / p - min r1 (p * q) / p) ≤ r2 - r1
      rw [min_eq_left hc1, min_eq_left hc2]
      have key : p * (r2 / p - r1 / p) = r2 - r1 := by
        field_simp
      nlinarith [div_nonneg (by linarith : (0 : ℚ) ≤ r2 - r1) hp.le, key,
        mul_le_mul_of_nonneg_right hpm
          (div_nonneg (by linarith : (0 : ℚ) ≤ r2 - r1) hp.le),
        sub_div r2 r1 p]
    · push_neg at hc2
      rw [if_neg (not_le.2 hc2)] at hfill2 ⊢
      have htake2 : min r2 (p * q) = p * q := min_eq_right hc2.le
      have hfill2' : (buy_walk rest (r2 - p * q)).1 = r2 - p * q := by
        have h' : min r2 (p * q) + (buy_walk rest (r2 - p * q)).1 = r2 := hfill2
        rw [htake2] at h'
        linarith
      have hrest2 : 0 < r2 - p * q := by linarith
      by_cases hc1 : r1 ≤ p * q
      · rw [if_pos hc1] at hfill1 ⊢
        have hup := buy_walk_upper rest p hposrest hrest_ge_p (r2 - p * q)
          hrest2 hfill2'
        have hb2 := (buy_walk_nonneg rest hposrest (r2 - p * q)).2
        show pmin * (min r2 (p * q) / p + (buy_walk rest (r2 - p * q)).2
            - min r1 (p * q) / p) ≤ r2 - r1
        rw [htake2, min_eq_left hc1]
        have hqdiv : p * q / p = q := by field_simp
        rw [hqdiv]
        have hr1p : p * (r1 / p) = r1 := by field_simp
        have hr1q : r1 / p ≤ q := by
          rw [div_le_iff₀ hp]
          nlinarith
        nlinarith [hup, hb2]
      · push_neg at hc1
        rw [if_neg (not_le.2 hc1)] at hfill1 ⊢
        have htake1 : min r1 (p * q) = p * q := min_eq_right hc1.le
        have hfill1' : (buy_walk rest (r1 - p * q)).1 = r1 - p * q := by
          have h' : min r1 (p * q) + (buy_walk rest (r1 - p * q)).1 = r1 := hfill1
          rw [htake1] at h'
          linarith
        have hrest1 : 0 < r1 - p * q := by linarith
        have ihres := ih hposrest (fun x hx => hbound x (List.mem_cons_of_mem _ hx))
          hsortedrest (r1 - p * q) (r2 - p * q) hrest1 (by linarith) hfill1' hfill2'
        show pmin * (min r2 (p * q) / p + (buy_walk rest (r2 - p * q)).2
            - (min r1 (p * q) / p + (buy_walk rest (r1 - p * q)).2)) ≤ r2 - r1
        rw [htake1, htake2]
        have hqdiv : p * q / p = q := by field_simp
        rw [hqdiv]
        nlinarith [ihres]

/-- Ratio monotonicity: on a positive ascending ladder, the average execution
price of a filled buy is monotone in the size (stated multiplicatively:
`r1 * B(r2) ≤ r2 * B(r1)`). -/
theorem buy_walk_ratio (asks : List (ℚ × ℚ))
    (hpos : ∀ pq ∈ asks, 0 < pq.1 ∧ 0 < pq.2)
    (hsorted : asks.Pairwise (fun a b => a.1 ≤ b.1)) :
    ∀ r1 r2 : ℚ, 0 < r1 → r1 ≤ r2 →
      (buy_walk asks r1).1 = r1 → (buy_walk asks r2).1 = r2 →
      r1 * (buy_walk asks r2).2 ≤ r2 * (buy_walk asks r1).2 := by
  induction asks with
  | nil =>
    intro r1 r2 hr1 _ hfill1 _
    rw [buy_walk] at hfill1
    have hz : (0 : ℚ) = r1 := hfill1
    exact absurd hz.symm (ne_of_gt hr1)
  | cons pq rest ih =>
    intro r1 r2 hr1 hle hfill1 hfill2
    obtain ⟨p, q⟩ := pq
    have hp := (hpos (p, q) (List.mem_cons_self _ _)).1
    have hq := (hpos (p, q) (List.mem_cons_self _ _)).2
    have hlevel : 0 < p * q := by positivity
    have hr2 : 0 < r2 := lt_of_lt_of_le hr1 hle
    have hposrest : ∀ x ∈ rest, 0 < x.1 ∧ 0 < x.2 :=
      fun x hx => hpos x (List.mem_cons_of_mem _ hx)
    have hrest_ge_p : ∀ x ∈ rest, p ≤ x.1 :=
      fun x hx => (List.pairwise_cons.1 hsorted).1 x hx
    have hsortedrest := (List.pairwise_cons.1 hsorted).2
    rw [buy_walk_cons_fill p q r1 rest (lt_min hr1 hlevel)] at hfill1 ⊢
    rw [buy_walk_cons_fill p q r2 rest (lt_min hr2 hlevel)] at hfill2 ⊢
    by_cases hc2 : r2 ≤ p * q
    · have hc1 : r1 ≤ p * q := le_trans hle hc2
      rw [if_pos hc1] at hfill1 ⊢
      rw [if_pos hc2] at hfill2 ⊢
      show r1 * (min r2 (p * q) / p) ≤ r2 * (min r1 (p * q) / p)
      rw [min_eq_left hc1, min_eq_left hc2]
      have key : r1 * (r2 / p) = r2 * (r1 / p) := by
        field_simp
        ring
      exact le_of_eq key
    · push_neg at hc2
      rw [if_neg (not_le.2 hc2)] at hfill2 ⊢
      have htake2 : min r2 (p * q) = p * q := min_eq_right hc2.le
      have hfill2' : (buy_walk rest (r2 - p * q)).1 = r2 - p * q := by
        have h' : min r2 (p * q) + (buy_walk rest (r2 - p * q)).1 = r2 := hfill2
        rw [htake2] at h'
        linarith
      have hrest2 : 0 < r2 - p * q := by linarith
      have hup := buy_walk_upper rest p hposrest hrest_ge_p (r2 - p * q)
        hrest2 hfill2'
      by_cases hc1 : r1 ≤ p * q
      · rw [if_pos hc1] at hfill1 ⊢
        show r1 * (min r2 (p * q) / p + (buy_walk rest (r2 - p * q)).2)
            ≤ r2 * (min r1 (p * q) / p)
        rw [htake2, min_eq_left hc1]
        have hqdiv : p * q / p = q := by field_simp
        rw [hqdiv]
        -- q + B'(r2 - pq) ≤ r2 / p, then multiply by r1 and commute
        have hsum : p * (q + (buy_walk rest (r2 - p * q)).2) ≤ r2 := by
          nlinarith [hup]
        have hr2p : r1 * (q + (buy_walk rest (r2 - p * q)).2) ≤ r1 * (r2 / p) := by
          apply mul_le_mul_of_nonneg_left _ hr1.le
          rw [le_div_iff₀ hp]
          nlinarith [hsum]
        have key : r1 * (r2 / p) = r2 * (r1 / p) := by
          field_simp
          ring
        linarith [hr2p, key.le]
      · push_neg at hc1
        rw [if_neg (not_le.2 hc1)] at hfill1 ⊢
        have htake1 : min r1 (p * q) = p * q := min_eq_right hc1.le
        have hfill1' : (buy_walk rest (r1 - p * q)).1 = r1 - p * q := by
          have h' : min r1 (p * q) + (buy_walk rest (r1 - p * q)).1 = r1 := hfill1
          rw [htake1] at h'
          linarith
        have hrest1 : 0 < r1 - p * q := by linarith
        have ihres := ih hposrest hsortedrest (r1 - p * q) (r2 - p * q) hrest1
          (by linarith) hfill1' hfill2'
        have hinc := buy_walk_increment rest p hposrest hrest_ge_p hsortedrest
          (r1 - p * q) (r2 - p * q) hrest1 (by linarith) hfill1' hfill2'
        show r1 * (min r2 (p * q) / p + (buy_walk rest (r2 - p * q)).2)
            ≤ r2 * (min r1 (p * q) / p + (buy_walk rest (r1 - p * q)).2)
        rw [htake1, htake2]
        have hqdiv : p * q / p = q := by field_simp
        rw [hqdiv]
        -- from ihres: r1 b2 - r2 b1 ≤ pq (b2 - b1); from hinc: p (b2 - b1) ≤ r2 - r1
        nlinarith [ihres, hinc, hq]

/-- Characterization of a successful buy-slippage computation: positive size,
exact fill, positive base bought, and the slippage formula. -/
theorem calc_buy_some_char (mid : ℚ) (asks : List (ℚ × ℚ)) (s v : ℚ)
    (h : calc_buy_slippage_bps mid asks s = some v) :
    0 < s ∧ (buy_walk asks s).1 = s ∧ 0 < (buy_walk asks s).2
    ∧ v = max 0 ((s / (buy_walk asks s).2 / mid - 1) * 10000) := by
  unfold calc_buy_slippage_bps at h
  by_cases hcond : ((buy_walk asks s).1 < s ∨ (buy_walk asks s).2 ≤ 0)
  · rw [if_pos hcond] at h
    exact absurd h (by simp)
  · rw [if_neg hcond] at h
    push_neg at hcond
    obtain ⟨hspent, hbought⟩ := hcond
    have hs : 0 < s := by
      by_contra hns
      push_neg at hns
      have hzero := buy_walk_nonpos asks s hns
      rw [hzero] at hbought
      exact absurd hbought (by norm_num)
    have hfill : (buy_walk asks s).1 = s := by
      have hle := buy_walk_spent_le asks s
      rw [max_eq_left hs.le] at hle
      exact le_antisymm hle hspent
    refine ⟨hs, hfill, hbought, ?_⟩
    rw [← Option.some.inj h, hfill]

/-- Buy-side monotonicity of the slippage value in the requested size. -/
theorem calc_buy_mono (mid : ℚ) (asks : List (ℚ × ℚ)) (hmid : 0 < mid)
    (hpos : ∀ pq ∈ asks, 0 < pq.1 ∧ 0 < pq.2)
    (hsorted : asks.Pairwise (fun a b => a.1 ≤ b.1))
    (s1 s2 v1 v2 : ℚ) (hle : s1 ≤ s2)
    (h1 : calc_buy_slippage_bps mid asks s1 = some v1)
    (h2 : calc_buy_slippage_bps mid asks s2 = some v2) : v1 ≤ v2 := by
  obtain ⟨hs1, hf1, hb1, hv1⟩ := calc_buy_some_char mid asks s1 v1 h1
  obtain ⟨hs2, hf2, hb2, hv2⟩ := calc_buy_some_char mid asks s2 v2 h2
  have hratio := buy_walk_ratio asks hpos hsorted s1 s2 hs1 hle hf1 hf2
  have havg : s1 / (buy_walk asks s1).2 ≤ s2 / (buy_walk asks s2).2 := by
    rw [div_le_div_iff₀ hb1 hb2]
    exact hratio
  have havgm : s1 / (buy_walk asks s1).2 / mid ≤ s2 / (buy_walk asks s2).2 / mid :=
    div_le_div_of_nonneg_right havg hmid.le
  rw [hv1, hv2]
  apply max_le_max (le_refl 0)
  nlinarith [havgm]

/-- A non-positive base target sells nothing. -/
theorem sell_walk_nonpos (bids : List (ℚ × ℚ)) (t : ℚ) (ht : t ≤ 0) :
    sell_walk bids t = (0, 0) := by
  cases bids with
  | nil => rfl
  | cons pq rest =>
    obtain ⟨p, q⟩ := pq
    rw [sell_walk, if_pos (le_trans (min_le_left t q) ht)]

/-- The sold accumulator never exceeds the base target (clamped at zero). -/
theorem sell_walk_sold_le (bids : List (ℚ × ℚ)) (t : ℚ) :
    (sell_walk bids t).1 ≤ max t 0 := by
  induction bids generalizing t with
  | nil => simp [sell_walk, le_max_right]
  | cons pq rest ih =>
    obtain ⟨p, q⟩ := pq
    rw [sell_walk]
    by_cases h0 : min t q ≤ 0
    · rw [if_pos h0]
      simp [le_max_right]
    · rw [if_neg h0]
      push_neg at h0
      by_cases ht : t ≤ q
      · rw [if_pos ht]
        simp only [min_eq_left ht]
        exact le_max_left t 0
      · rw [if_neg ht]
        push_neg at ht
        have ih' := ih (t - q)
        have hq0 : 0 < q := (lt_min_iff.1 h0).2
        have hmax : max (t - q) 0 = t - q := by
          rw [max_eq_left]
          linarith
        rw [hmax] at ih'
        simp only [min_eq_right ht.le]
        calc q + (sell_walk rest (t - q)).1 ≤ q + (t - q) := by linarith
        _ = t := by ring
        _ ≤ max t 0 := le_max_left t 0

/-- Unfolding of the sell walk on a level that takes a positive amount. -/
theorem sell_walk_cons_fill (p q t : ℚ) (rest : List (ℚ × ℚ))
    (h0 : 0 < min t q) :
    sell_walk ((p, q) :: rest) t =
      if t ≤ q then (min t q, min t q * p)
      else (min t q + (sell_walk rest (t - q)).1,
            min t q * p + (sell_walk rest (t - q)).2) := by
  rw [sell_walk, if_neg (not_le.2 h0)]

/-- Upper bound on the quote received: every unit sells at price at most
`pmax`, so a filled sale of `t` base receives at most `t * pmax` quote. -/
theorem sell_walk_upper (bids : List (ℚ × ℚ)) (pmax : ℚ)
    (hpos : ∀ pq ∈ bids, 0 < pq.1 ∧ 0 < pq.2)
    (hbound : ∀ pq ∈ bids, pq.1 ≤ pmax) :
    ∀ t : ℚ, 0 < t → (sell_walk bids t).1 = t →
      (sell_walk bids t).2 ≤ t * pmax := by
  induction bids with
  | nil =>
    intro t ht hfill
    rw [sell_walk] at hfill
    have hz : (0 : ℚ) = t := hfill
    exact absurd hz.symm (ne_of_gt ht)
  | cons pq rest ih =>
    intro t ht hfill
    obtain ⟨p, q⟩ := pq
    have hq := (hpos (p, q) (List.mem_cons_self _ _)).2
    have hpm : p ≤ pmax := hbound (p, q) (List.mem_cons_self _ _)
    have h0 : ¬(min t q ≤ 0) := by
      push_neg
      exact lt_min ht hq
    rw [sell_walk, if_neg h0] at hfill ⊢
    by_cases hcase : t ≤ q
    · rw [if_pos hcase] at hfill ⊢
      show min t q * p ≤ t * pmax
      rw [min_eq_left hcase]
      nlinarith
    · rw [if_neg hcase] at hfill ⊢
      push_neg at hcase
      have htake : min t q = q := min_eq_right hcase.le
      have hfill' : (sell_walk rest (t - q)).1 = t - q := by
        have h' : min t q + (sell_walk rest (t - q)).1 = t := hfill
        rw [htake] at h'
        linarith
      have hrest : 0 < t - q := by linarith
      have ihres := ih (fun x hx => hpos x (List.mem_cons_of_mem _ hx))
        (fun x hx => hbound x (List.mem_cons_of_mem _ hx)) (t - q) hrest hfill'
      show min t q * p + (sell_walk rest (t - q)).2 ≤ t * pmax
      rw [htake]
      nlinarith [ihres]

/-- Increment bound: extra base sold at prices at most `pmax` receives at most
`(t2 - t1) * pmax` extra quote, on a descending ladder. -/
theorem sell_walk_increment (bids : List (ℚ × ℚ)) (pmax : ℚ)
    (hpos : ∀ pq ∈ bids, 0 < pq.1 ∧ 0 < pq.2)
    (hbound : ∀ pq ∈ bids, pq.1 ≤ pmax)
    (hsorted : bids.Pairwise (fun a b => b.1 ≤ a.1)) :
    ∀ t1 t2 : ℚ, 0 < t1 → t1 ≤ t2 →
      (sell_walk bids t1).1 = t1 → (sell_walk bids t2).1 = t2 →
      (sell_walk bids t2).2 - (sell_walk bids t1).2 ≤ (t2 - t1) * pmax := by
  induction bids with
  | nil =>
    intro t1 t2 ht1 _ hfill1 _
    rw [sell_walk] at hfill1
    have hz : (0 : ℚ) = t1 := hfill1
    exact absurd hz.symm (ne_of_gt ht1)
  | cons pq rest ih =>
    intro t1 t2 ht1 hle hfill1 hfill2
    obtain ⟨p, q⟩ := pq
    have hp := (hpos (p, q) (List.mem_cons_self _ _)).1
    have hq := (hpos (p, q) (List.mem_cons_self _ _)).2
    have hpm : p ≤ pmax := hbound (p, q) (List.mem_cons_self _ _)
    have ht2 : 0 < t2 := lt_of_lt_of_le ht1 hle
    have hposrest : ∀ x ∈ rest, 0 < x.1 ∧ 0 < x.2 :=
      fun x hx => hpos x (List.mem_cons_of_mem _ hx)
    have hrest_le_p : ∀ x ∈ rest, x.1 ≤ p :=
      fun x hx => (List.pairwise_cons.1 hsorted).1 x hx
    have hsortedrest := (List.pairwise_cons.1 hsorted).2
    rw [sell_walk_cons_fill p q t1 rest (lt_min ht1 hq)] at hfill1 ⊢
    rw [sell_walk_cons_fill p q t2 rest (lt_min ht2 hq)] at hfill2 ⊢
    by_cases hc2 : t2 ≤ q
    · have hc1 : t1 ≤ q := le_trans hle hc2
      rw [if_pos hc1] at hfill1 ⊢
      rw [if_pos hc2] at hfill2 ⊢
      show min t2 q * p - min t1 q * p ≤ (t2 - t1) * pmax
      rw [min_eq_left hc1, min_eq_left hc2]
      nlinarith
    · push_neg at hc2
      rw [if_neg (not_le.2 hc2)] at hfill2 ⊢
      have htake2 : min t2 q = q := min_eq_right hc2.le
      have hfill2' : (sell_walk rest (t2 - q)).1 = t2 - q := by
        have h' : min t2 q + (sell_walk rest (t2 - q)).1 = t2 := hfill2
        rw [htake2] at h'
        linarith
      have hrest2 : 0 < t2 - q := by linarith
      by_cases hc1 : t1 ≤ q
      · rw [if_pos hc1] at hfill1 ⊢
        have hup := sell_walk_upper rest p hposrest hrest_le_p (t2 - q)
          hrest2 hfill2'
        show min t2 q * p + (sell_walk rest (t2 - q)).2 - min t1 q * p
            ≤ (t2 - t1) * pmax
        rw [htake2, min_eq_left hc1]
        nlinarith [hup]
      · push_neg at hc1
        rw [if_neg (not_le.2 hc1)] at hfill1 ⊢
        have htake1 : min t1 q = q := min_eq_right hc1.le
        have hfill1' : (sell_walk rest (t1 - q)).1 = t1 - q := by
          have h' : min t1 q + (sell_walk rest (t1 - q)).1 = t1 := hfill1
          rw [htake1] at h'
          linarith
        have hrest1 : 0 < t1 - q := by linarith
        have ihres := ih hposrest (fun x hx => hbound x (List.mem_cons_of_mem _ hx))
          hsortedrest (t1 - q) (t2 - q) hrest1 (by linarith) hfill1' hfill2'
        show min t2 q * p + (sell_walk rest (t2 - q)).2
            - (min t1 q * p + (sell_walk rest (t1 - q)).2) ≤ (t2 - t1) * pmax
        rw [htake1, htake2]
        nlinarith [ihres]

/-- Ratio monotonicity: on a positive descending ladder, the average execution
price of a filled sale is antitone in the size (stated multiplicatively:
`t1 * R(t2) ≤ t2 * R(t1)`). -/
theorem sell_walk_ratio (bids : List (ℚ × ℚ))
    (hpos : ∀ pq ∈ bids, 0 < pq.1 ∧ 0 < pq.2)
    (hsorted : bids.Pairwise (fun a b => b.1 ≤ a.1)) :
    ∀ t1 t2 : ℚ, 0 < t1 → t1 ≤ t2 →
      (sell_walk bids t1).1 = t1 → (sell_walk bids t2).1 = t2 →
      t1 * (sell_walk bids t2).2 ≤ t2 * (sell_walk bids t1).2 := by
  induction bids with
  | nil =>
    intro t1 t2 ht1 _ hfill1 _
    rw [sell_walk] at hfill1
    have hz : (0 : ℚ) = t1 := hfill1
    exact absurd hz.symm (ne_of_gt ht1)
  | cons pq rest ih =>
    intro t1 t2 ht1 hle hfill1 hfill2
    obtain ⟨p, q⟩ := pq
    have hp := (hpos (p, q) (List.mem_cons_self _ _)).1
    have hq := (hpos (p, q) (List.mem_cons_self _ _)).2
    have ht2 : 0 < t2 := lt_of_lt_of_le ht1 hle
    have hposrest : ∀ x ∈ rest, 0 < x.1 ∧ 0 < x.2 :=
      fun x hx => hpos x (List.mem_cons_of_mem _ hx)
    have hrest_le_p : ∀ x ∈ rest, x.1 ≤ p :=
      fun x hx => (List.pairwise_cons.1 hsorted).1 x hx
    have hsortedrest := (List.pairwise_cons.1 hsorted).2
    rw [sell_walk_cons_fill p q t1 rest (lt_min ht1 hq)] at hfill1 ⊢
    rw [sell_walk_cons_fill p q t2 rest (lt_min ht2 hq)] at hfill2 ⊢
    by_cases hc2 : t2 ≤ q
    · have hc1 : t1 ≤ q := le_trans hle hc2
      rw [if_pos hc1] at hfill1 ⊢
      rw [if_pos hc2] at hfill2 ⊢
      show t1 * (min t2 q * p) ≤ t2 * (min t1 q * p)
      rw [min_eq_left hc1, min_eq_left hc2]
      nlinarith
    · push_neg at hc2
      rw [if_neg (not_le.2 hc2)] at hfill2 ⊢
      have htake2 : min t2 q = q := min_eq_right hc2.le
      have hfill2' : (sell_walk rest (t2 - q)).1 = t2 - q := by
        have h' : min t2 q + (sell_walk rest (t2 - q)).1 = t2 := hfill2
        rw [htake2] at h'
        linarith
      have hrest2 : 0 < t2 - q := by linarith
      have hup := sell_walk_upper rest p hposrest hrest_le_p (t2 - q)
        hrest2 hfill2'
      by_cases hc1 : t1 ≤ q
      · rw [if_pos hc1] at hfill1 ⊢
        show t1 * (min t2 q * p + (sell_walk rest (t2 - q)).2)
            ≤ t2 * (min t1 q * p)
        rw [htake2, min_eq_left hc1]
        -- q * p + R'(t2 - q) ≤ t2 * p, then multiply by t1 and commute
        have hsum : q * p + (sell_walk rest (t2 - q)).2 ≤ t2 * p := by
          nlinarith [hup]
        nlinarith [hsum]
      · push_neg at hc1
        rw [if_neg (not_le.2 hc1)] at hfill1 ⊢
        have htake1 : min t1 q = q := min_eq_right hc1.le
        have hfill1' : (sell_walk rest (t1 - q)).1 = t1 - q := by
          have h' : min t1 q + (sell_walk rest (t1 - q)).1 = t1 := hfill1
          rw [htake1] at h'
          linarith
        have hrest1 : 0 < t1 - q := by linarith
        have ihres := ih hposrest hsortedrest (t1 - q) (t2 - q) hrest1
          (by linarith) hfill1' hfill2'
        have hinc := sell_walk_increment rest p hposrest hrest_le_p hsortedrest
          (t1 - q) (t2 - q) hrest1 (by linarith) hfill1' hfill2'
        show t1 * (min t2 q * p + (sell_walk rest (t2 - q)).2)
            ≤ t2 * (min t1 q * p + (sell_walk rest (t1 - q)).2)
        rw [htake1, htake2]
        nlinarith [ihres, hinc, hq]

/-- Characterization of a successful sell-slippage computation: positive base
target, exact fill, and the slippage formula. -/
theorem calc_sell_some_char (mid : ℚ) (bids : List (ℚ × ℚ)) (s v : ℚ)
    (h : calc_sell_slippage_bps mid bids s = some v) :
    0 < s / mid ∧ (sell_walk bids (s / mid)).1 = s / mid
    ∧ v = max 0 ((1 - (sell_walk bids (s / mid)).2 / (s / mid) / mid) * 10000) := by
  unfold calc_sell_slippage_bps at h
  by_cases hcond : ((sell_walk bids (s / mid)).1 < s / mid
      ∨ (sell_walk bids (s / mid)).1 ≤ 0)
  · rw [if_pos hcond] at h
    exact absurd h (by simp)
  · rw [if_neg hcond] at h
    push_neg at hcond
    obtain ⟨hsold, hpos⟩ := hcond
    have ht : 0 < s / mid := by
      by_contra hns
      push_neg at hns
      have hzero := sell_walk_nonpos bids (s / mid) hns
      rw [hzero] at hpos
      exact absurd hpos (by norm_num)
    have hfill : (sell_walk bids (s / mid)).1 = s / mid := by
      have hle := sell_walk_sold_le bids (s / mid)
      rw [max_eq_left ht.le] at hle
      exact le_antisymm hle hsold
    refine ⟨ht, hfill, ?_⟩
    rw [← Option.some.inj h, hfill]

/-- Sell-side monotonicity of the slippage value in the requested size. -/
theorem calc_sell_mono (mid : ℚ) (bids : List (ℚ × ℚ)) (hmid : 0 < mid)
    (hpos : ∀ pq ∈ bids, 0 < pq.1 ∧ 0 < pq.2)
    (hsorted : bids.Pairwise (fun a b => b.1 ≤ a.1))
    (s1 s2 v1 v2 : ℚ) (hle : s1 ≤ s2)
    (h1 : calc_sell_slippage_bps mid bids s1 = some v1)
    (h2 : calc_sell_slippage_bps mid bids s2 = some v2) : v1 ≤ v2 := by
  obtain ⟨ht1, hf1, hv1⟩ := calc_sell_some_char mid bids s1 v1 h1
  obtain ⟨ht2, hf2, hv2⟩ := calc_sell_some_char mid bids s2 v2 h2
  have htle : s1 / mid ≤ s2 / mid := div_le_div_of_nonneg_right hle hmid.le
  have hratio := sell_walk_ratio bids hpos hsorted (s1 / mid) (s2 / mid)
    ht1 htle hf1 hf2
  have havg : (sell_walk bids (s2 / mid)).2 / (s2 / mid)
      ≤ (sell_walk bids (s1 / mid)).2 / (s1 / mid) := by
    rw [div_le_div_iff₀ ht2 ht1]
    nlinarith [hratio]
  have havgm : (sell_walk bids (s2 / mid)).2 / (s2 / mid) / mid
      ≤ (sell_walk bids (s1 / mid)).2 / (s1 / mid) / mid :=
    div_le_div_of_nonneg_right havg hmid.le
  rw [hv1, hv2]
  apply max_le_max (le_refl 0)
  nlinarith [havgm]

/-- C7: for a fixed depth ladder with positive prices and quantities (asks
ascending, bids descending) and a positive mid price, both depth-slippage
functions are monotone non-decreasing in the requested USD size wherever they
return a value: for sizes `s1 ≤ s2` at which a side returns `some`, the
slippage at `s1` is at most the slippage at `s2`. -/
theorem depth_slippage_monotone (mid : ℚ) (asks bids : List (ℚ × ℚ))
    (hmid : 0 < mid)
    (hasks : ∀ pq ∈ asks, 0 < pq.1 ∧ 0 < pq.2)
    (hbids : ∀ pq ∈ bids, 0 < pq.1 ∧ 0 < pq.2)
    (hasc : asks.Pairwise (fun a b => a.1 ≤ b.1))
    (hdesc : bids.Pairwise (fun a b => b.1 ≤ a.1))
    (s1 s2 : ℚ) (hle : s1 ≤ s2) :
    (∀ v1 v2, calc_buy_slippage_bps mid asks s1 = some v1 →
      calc_buy_slippage_bps mid asks s2 = some v2 → v1 ≤ v2)
    ∧ (∀ v1 v2, calc_sell_slippage_bps mid bids s1 = some v1 →
      calc_sell_slippage_bps mid bids s2 = some v2 → v1 ≤ v2) := by
  constructor
  · intro v1 v2 h1 h2
    exact calc_buy_mono mid asks hmid hasks hasc s1 s2 v1 v2 hle h1 h2
  · intro v1 v2 h1 h2
    exact calc_sell_mono mid bids hmid hbids hdesc s1 s2 v1 v2 hle h1 h2

unseal Rat.mul Rat.add Rat.sub Rat.inv Rat.ofScientific in
/-- Witness for C7 on a concrete book: mid 100, asks `[(100,1),(101,1)]`,
bids `[(99,1),(98,1)]`, sizes 50 and 150; buy slippage goes 0 to 5000/151 bps
and sell slippage 100 to 400/3 bps. -/
theorem depth_slippage_monotone_witness :
    (0 : ℚ) ≤ 5000 / 151 ∧ (100 : ℚ) ≤ 400 / 3 := by
  have h := depth_slippage_monotone 100 [(100, 1), (101, 1)] [(99, 1), (98, 1)]
    (by norm_num) (by decide) (by decide) (by decide) (by decide)
    50 150 (by norm_num)
  exact ⟨h.1 0 (5000 / 151) (by decide) (by decide),
    h.2 100 (400 / 3) (by decide) (by decide)⟩
